import Mathlib

/-!
Verification development for the Custom Elements Manifest → Angular wrapper
generator.  The definitions below are a shallow embedding of the generator's
core pipeline: the identifier normalizer (`src/utils/string.ts`), the manifest
parser (`src/generators/manifest-parser.ts`), the type-reference resolver and
template emitter (`src/types/component.ts`), and the regeneration coordinator
(`src/generators/angular-wrapper-generator.ts` together with
`src/utils/file-system.ts`).  JavaScript strings are modelled as Lean
`String`s (lists of characters), JSON values as the inductive `Js`, and the
output directory as a finite partial map from file names to file contents.
-/

namespace CemSpec

/-! ## Character classes used by the regexes in `src/utils/string.ts` -/

/-- Character class `[a-zA-Z0-9]` of the camel-casing regex. -/
def isAsciiAlphaNum (c : Char) : Bool :=
  c.isUpper || c.isLower || c.isDigit

/-- Character class `[a-zA-Z0-9_]` (the complement of the strip regex
`[^a-zA-Z0-9_]`), also the word-character class of the token regex. -/
def isIdentChar (c : Char) : Bool :=
  isAsciiAlphaNum c || c = '_'

/-- Character class `[A-Za-z_]` of the leading-character test. -/
def isIdentStart (c : Char) : Bool :=
  c.isUpper || c.isLower || c = '_'

/-! ## `toIdentifier` (`src/utils/string.ts`, lines 19–33)

The first replace (global regex: dash followed by `[a-zA-Z0-9]`, replaced by
the upper-cased captured character) scans left to right and camel-cases dash
separators; then the second replace (global regex `[^a-zA-Z0-9_]`, replaced
by the empty string) deletes every remaining non-word character.
-/

/-- One left-to-right pass of the first global replace: each dash immediately
followed by an alphanumeric character becomes the upper-cased following
character. -/
def camelChars : List Char → List Char
  | [] => []
  | '-' :: c :: rest =>
      if isAsciiAlphaNum c then c.toUpper :: camelChars rest
      else '-' :: camelChars (c :: rest)
  | c :: rest => c :: camelChars rest

/-- `toIdentifier` from `src/utils/string.ts`: camel-case dash separators,
strip the remaining non-word characters, fall back to `"event"` when nothing
remains, and prepend an underscore when the first character is not a letter
or underscore. -/
def toIdentifier (value : String) : String :=
  let camel := (camelChars value.data).filter isIdentChar
  match camel with
  | [] => "event"
  | c :: cs => if isIdentStart c then String.mk (c :: cs) else String.mk ('_' :: c :: cs)

/-! ## Maximal-run splitting

Shared helper for `toPascalCase` (split on `/[-\s]+/` and drop empty
segments) and the token regex of the type-reference resolver: both need the
maximal runs of characters satisfying a class. -/

/-- Accumulating splitter: `runsAux p acc cs` returns the maximal runs of
characters of `cs` satisfying `p`, with `acc` the (reversed) run in
progress. -/
def runsAux (p : Char → Bool) : List Char → List Char → List (List Char)
  | acc, [] => if acc.isEmpty then [] else [acc.reverse]
  | acc, c :: rest =>
      if p c then runsAux p (c :: acc) rest
      else if acc.isEmpty then runsAux p [] rest
      else acc.reverse :: runsAux p [] rest

/-- Maximal runs of characters satisfying `p`. -/
def runsOf (p : Char → Bool) (cs : List Char) : List (List Char) :=
  runsAux p [] cs

/-- Leading-match test on character lists: `leadsWith p l` holds when `p` is
an initial segment of `l`. -/
def leadsWith : List Char → List Char → Bool
  | [], _ => true
  | _ :: _, [] => false
  | p :: ps, c :: cs => p = c && leadsWith ps cs

/-- `String.prototype.startsWith`. -/
def jsStartsWith (s pat : String) : Bool :=
  leadsWith pat.data s.data

/-- `String.prototype.endsWith`. -/
def jsEndsWith (s pat : String) : Bool :=
  leadsWith pat.data.reverse s.data.reverse

/-- Characters that are not split on by `toPascalCase`'s regex `/[-\s]+/`. -/
def notSegSep (c : Char) : Bool :=
  !(c = '-' || c.isWhitespace)

/-- `toPascalCase` from `src/utils/string.ts`: split on runs of dashes and
whitespace, discard empty segments, upper-case each segment's first character
and concatenate. -/
def toPascalCase (value : String) : String :=
  String.mk ((runsOf notSegSep value.data).flatMap fun seg =>
    match seg with
    | [] => []
    | c :: cs => c.toUpper :: cs)

/-! ## Claims C4 and C5 -/

/-- C4: the safe-identifier derivation satisfies the four documented
input/output pairs: `"item-selected" ↦ "itemSelected"`,
`"123-invalid" ↦ "_123Invalid"`, `"ITEM_DELETED" ↦ "ITEM_DELETED"`, and
`"item.updated" ↦ "itemupdated"` (the dot is deleted, not treated as a
camel-casing separator). -/
theorem toIdentifier_documented_pairs :
    toIdentifier "item-selected" = "itemSelected" ∧
    toIdentifier "123-invalid" = "_123Invalid" ∧
    toIdentifier "ITEM_DELETED" = "ITEM_DELETED" ∧
    toIdentifier "item.updated" = "itemupdated" := by
  refine ⟨?_, ?_, ?_, ?_⟩ <;> decide

/-- Stripped camel form of the input, before the fallback and the
leading-underscore fix-up. -/
def strippedCamel (value : String) : List Char :=
  (camelChars value.data).filter isIdentChar

theorem toIdentifier_eq_of_stripped_nil {value : String}
    (h : strippedCamel value = []) : toIdentifier value = "event" := by
  unfold toIdentifier
  rw [show (camelChars value.data).filter isIdentChar = strippedCamel value from rfl, h]

theorem toIdentifier_eq_of_stripped_cons {value : String} {c : Char} {cs : List Char}
    (h : strippedCamel value = c :: cs) :
    toIdentifier value =
      if isIdentStart c then String.mk (c :: cs) else String.mk ('_' :: c :: cs) := by
  unfold toIdentifier
  rw [show (camelChars value.data).filter isIdentChar = strippedCamel value from rfl, h]

/-- C5: for every input string the safe-identifier derivation returns a
syntactically valid bare identifier — the result is non-empty, consists only
of ASCII letters, digits and underscores, and begins with a letter or
underscore; when stripping leaves an empty string the literal fallback
`"event"` is returned, and when the first remaining character is not a letter
or underscore an underscore is prefixed. -/
theorem toIdentifier_valid (value : String) :
    (toIdentifier value).data ≠ [] ∧
    (∀ c ∈ (toIdentifier value).data, isIdentChar c = true) ∧
    (∀ c, (toIdentifier value).data.head? = some c → isIdentStart c = true) ∧
    (strippedCamel value = [] → toIdentifier value = "event") ∧
    (∀ c cs, strippedCamel value = c :: cs → isIdentStart c = false →
      toIdentifier value = String.mk ('_' :: c :: cs)) := by
  have hchars : ∀ c ∈ strippedCamel value, isIdentChar c = true := by
    intro c hc
    exact List.of_mem_filter hc
  refine ⟨?_, ?_, ?_, ?_, ?_⟩
  · cases h : strippedCamel value with
    | nil => rw [toIdentifier_eq_of_stripped_nil h]; decide
    | cons c cs =>
      rw [toIdentifier_eq_of_stripped_cons h]
      split <;> simp
  · intro c hc
    cases h : strippedCamel value with
    | nil =>
      rw [toIdentifier_eq_of_stripped_nil h] at hc
      have h5 : c = 'e' ∨ c = 'v' ∨ c = 'e' ∨ c = 'n' ∨ c = 't' := by
        simpa using hc
      rcases h5 with h' | h' | h' | h' | h' <;> subst h' <;> decide
    | cons d ds =>
      rw [toIdentifier_eq_of_stripped_cons h] at hc
      have hall : ∀ x ∈ d :: ds, isIdentChar x = true := fun x hx => hchars x (h ▸ hx)
      by_cases hd : isIdentStart d = true
      · rw [if_pos hd] at hc
        exact hall c hc
      · rw [if_neg hd] at hc
        have hc2 : c ∈ '_' :: d :: ds := hc
        rcases List.mem_cons.mp hc2 with rfl | hc'
        · decide
        · exact hall c hc'
  · intro c hc
    cases h : strippedCamel value with
    | nil =>
      rw [toIdentifier_eq_of_stripped_nil h] at hc
      have h2 : some 'e' = some c := hc
      injection h2 with h3
      subst h3; decide
    | cons d ds =>
      rw [toIdentifier_eq_of_stripped_cons h] at hc
      by_cases hd : isIdentStart d = true
      · rw [if_pos hd] at hc
        have h2 : some d = some c := hc
        injection h2 with h3
        exact h3 ▸ hd
      · rw [if_neg hd] at hc
        have h2 : some '_' = some c := hc
        injection h2 with h3
        subst h3; decide
  · exact toIdentifier_eq_of_stripped_nil
  · intro c cs h hstart
    rw [toIdentifier_eq_of_stripped_cons h, if_neg (by simp [hstart])]

/-- Witness for C5 at the concrete input `"9è"`: stripping leaves `"9"`,
whose head is not a letter or underscore, so the result is `"_9"`. -/
theorem toIdentifier_valid_witness :
    (toIdentifier "9è").data ≠ [] ∧ toIdentifier "9è" = "_9" := by
  have h := toIdentifier_valid "9è"
  refine ⟨h.1, ?_⟩
  exact h.2.2.2.2 '9' [] (by decide) (by decide)

/-! ## JSON values

`JSON.parse` yields a JavaScript value; the parser then walks it dynamically
(`manifest?.modules`, `Array.isArray`, truthiness tests).  `Js` models such a
parsed JSON value; numbers are modelled as integers, which covers every field
the manifest schema uses. -/

inductive Js where
  | null
  | bool (b : Bool)
  | num (n : Int)
  | str (s : String)
  | arr (elems : List Js)
  | obj (fields : List (String × Js))

/-- Property access `v.k` (and `v?.k`): a field of an object, `undefined`
(here `none`) in every other case. -/
def Js.getField : Js → String → Option Js
  | .obj fields, k => fields.lookup k
  | _, _ => none

/-- JavaScript truthiness of a value. -/
def Js.truthy : Js → Bool
  | .null => false
  | .bool b => b
  | .num n => n != 0
  | .str s => s != ""
  | .arr _ => true
  | .obj _ => true

/-- String conversion of a primitive value, as JavaScript's `String(v)`. -/
def Js.primString : Js → String
  | .null => "null"
  | .bool true => "true"
  | .bool false => "false"
  | .num n => toString n
  | .str s => s
  | .arr _ => ""
  | .obj _ => "[object Object]"

/-- Modelled from the spec's external-interface description: the platform's
string coercion `String(v)` (not code of this repository), applied where the
source casts a manifest field `as string` and then interpolates it.  Primitive
values convert as in JavaScript; an array joins its elements with commas with
null elements becoming empty; nesting deeper than one array level is cut off,
which no manifest field shape described by the spec can reach. -/
def Js.castString : Js → String
  | .arr xs =>
      String.intercalate "," (xs.map fun j =>
        match j with
        | .null => ""
        | j => j.primString)
  | j => j.primString

/-- String of a possibly-missing field: a missing field is `undefined`, whose
string conversion is `"undefined"`. -/
def jsString (o : Option Js) : String :=
  match o with
  | none => "undefined"
  | some v => v.castString

/-- Optional string of a possibly-missing field whose every downstream use is
a truthiness test followed by string use (the `description` fields): a falsy
value behaves exactly like an absent one, so both collapse to `none`. -/
def jsOptString (o : Option Js) : Option String :=
  match o with
  | none => none
  | some v => if v.truthy then some v.castString else none

/-- Optional string of a field consumed through nullish coalescing (`path`,
read later as `sourceModule ?? 'n/a'`): only `undefined` and `null` collapse
to `none`. -/
def jsNullishString (o : Option Js) : Option String :=
  match o with
  | none => none
  | some .null => none
  | some v => some v.castString

/-! ## The normalized component model (`src/types/component.ts`, lines 1–24) -/

/-- `ComponentMember`: a settable property surfaced by a custom element. -/
structure ComponentMember where
  name : String
  type : String
  optional : Bool
  description : Option String
deriving DecidableEq, Repr

/-- `ComponentEvent`: a custom event a component may dispatch. -/
structure ComponentEvent where
  eventName : String
  outputName : String
  type : String
  description : Option String
deriving DecidableEq, Repr

/-- `ComponentMeta`: one generated wrapper unit, keyed by tag name. -/
structure ComponentMeta where
  tagName : String
  selector : String
  className : String
  fileName : String
  sourceModule : Option String
  description : Option String
  members : List ComponentMember
  events : List ComponentEvent
deriving DecidableEq, Repr

/-! ## The manifest parser (`src/generators/manifest-parser.ts`) -/

/-- Kind filter of `parseComponentMembers`:
`['field', 'property'].includes(member.kind ?? '')`. -/
def memberKindOk (m : Js) : Bool :=
  match m.getField "kind" with
  | some (.str s) => s == "field" || s == "property"
  | _ => false

/-- Type text of a member or event with its fallback:
`(x.type?.text as string) || fallback`. -/
def typeTextOr (fallback : String) (t : Option Js) : String :=
  match t with
  | some v =>
      match v.getField "text" with
      | some txt => if txt.truthy then txt.castString else fallback
      | none => fallback
  | none => fallback

/-- Optional flag of a member: `(member.optional as boolean) ?? true`; a
non-nullish non-boolean value is kept and every downstream use is a
truthiness test, so it collapses to its truthiness. -/
def optionalFlag (o : Option Js) : Bool :=
  match o with
  | none => true
  | some .null => true
  | some v => v.truthy

/-- `parseComponentMembers` (`src/generators/manifest-parser.ts`, lines
70–83): a non-array `members` value yields `[]`; otherwise keep the truthy
members whose `kind` is `field` or `property` and map each survivor to a
`ComponentMember`. -/
def parseComponentMembers (members : Option Js) : List ComponentMember :=
  match members with
  | some (.arr xs) =>
      (xs.filter fun m => m.truthy && memberKindOk m).map fun m =>
        { name := jsString (m.getField "name")
          type := typeTextOr "any" (m.getField "type")
          optional := optionalFlag (m.getField "optional")
          description := jsOptString (m.getField "description") }
  | _ => []

/-- `parseComponentEvents` (`src/generators/manifest-parser.ts`, lines
88–99), restricted to the successful executions: a non-array `events` value
yields `[]`; otherwise every event is mapped (no filtering), with
`outputName` derived by `toIdentifier`.  The source calls
`toIdentifier(event.name)` on the raw value, which throws a `TypeError`
whenever that value is not a string; the fallible `parseComponentEventsE`
below models that error path, and `parseManifestE_agrees` proves this total
version coincides with it on every input where the program does not throw
(in particular on every manifest whose event names are strings, where the
coercion `jsString` is the identity). -/
def parseComponentEvents (events : Option Js) : List ComponentEvent :=
  match events with
  | some (.arr xs) =>
      xs.map fun e =>
        let n := jsString (e.getField "name")
        { eventName := n
          outputName := toIdentifier n
          type := typeTextOr "CustomEvent<any>" (e.getField "type")
          description := jsOptString (e.getField "description") }
  | _ => []

/-- `isPublicFieldLikeMember` (unnamed source file, part_000): the type guard
used by the repository's other parser variant.  It additionally rejects
members whose name is missing, empty or starts with `#`, whose `privacy` is
truthy and not `public`, and whose `modifiers` include `private` or
`protected`. -/
def isPublicFieldLikeMember (m : Js) : Bool :=
  (match m with
   | .obj _ => true
   | .arr _ => true
   | _ => false) &&
  memberKindOk m &&
  (match m.getField "name" with
   | some (.str s) => s != "" && !(jsStartsWith s "#")
   | _ => false) &&
  (match m.getField "privacy" with
   | some v => if v.truthy then v.castString == "public" else true
   | none => true) &&
  !(match m.getField "modifiers" with
    | some (.arr ms) =>
        ms.any fun j =>
          match j with
          | .str s => s == "private" || s == "protected"
          | _ => false
    | _ => false)

/-- Declaration filter of the module walk:
`!decl || decl.kind !== 'class' || !decl.tagName` skips the declaration. -/
def declOk (decl : Js) : Bool :=
  decl.truthy &&
  (match decl.getField "kind" with
   | some (.str s) => s == "class"
   | _ => false) &&
  (match decl.getField "tagName" with
   | some v => v.truthy
   | none => false)

/-- `parseComponentDeclaration` (`src/generators/manifest-parser.ts`, lines
42–65), restricted to the successful executions: derive `selector`,
`className` and `fileName` from the tag name and build the normalized
record.  The source calls `toPascalCase(tagName)` on the raw value, which
throws a `TypeError` whenever the (truthy) tag name is not a string; the
fallible `parseComponentDeclarationE` below models that error path, and
`parseManifestE_agrees` proves this total version coincides with it
whenever the program does not throw. -/
def parseComponentDeclaration (decl : Js) (modulePath : Option String)
    (wrapperSelectorPrefix : String) : ComponentMeta :=
  let tagName := jsString (decl.getField "tagName")
  let selector := wrapperSelectorPrefix ++ tagName
  { tagName := tagName
    selector := selector
    className := "Wc" ++ toPascalCase tagName ++ "Component"
    fileName := selector ++ ".component.ts"
    sourceModule := modulePath
    description := jsOptString (decl.getField "description")
    members := parseComponentMembers (decl.getField "members")
    events := parseComponentEvents (decl.getField "events") }

/-- Module walk of `parseManifest`: a module with a missing or non-array
`declarations` field is skipped; each eligible declaration is parsed in
order. -/
def collectComponents (mods : List Js) (wrapperSelectorPrefix : String) :
    List ComponentMeta :=
  mods.flatMap fun mod =>
    match mod.getField "declarations" with
    | some (.arr decls) =>
        (decls.filter declOk).map fun decl =>
          parseComponentDeclaration decl (jsNullishString (mod.getField "path"))
            wrapperSelectorPrefix
    | _ => []

/-! ## The tag-name ordering

The source sorts with `a.tagName.localeCompare(b.tagName)`. -/

/-- Lexicographic (code-point) comparison of character lists. -/
def charListLe : List Char → List Char → Bool
  | [], _ => true
  | _ :: _, [] => false
  | a :: as, b :: bs => if a = b then charListLe as bs else decide (a < b)

/-- Modelled from the spec: the comparator `a.tagName.localeCompare(b.tagName)`
calls the platform's locale-aware `String.prototype.localeCompare`, which is
not code of this repository; the spec characterizes the comparison as
"locale-neutral lexicographic", modelled here as code-point lexicographic
order on the tag names. -/
def tagLeB (a b : ComponentMeta) : Bool :=
  charListLe a.tagName.data b.tagName.data

/-- Propositional form of `tagLeB`, the relation the parser sorts by. -/
def tagLe (a b : ComponentMeta) : Prop :=
  tagLeB a b = true

instance : DecidableRel tagLe := fun a b =>
  inferInstanceAs (Decidable (tagLeB a b = true))

theorem charListLe_total : ∀ as bs : List Char,
    charListLe as bs = true ∨ charListLe bs as = true := by
  intro as
  induction as with
  | nil => intro bs; left; rfl
  | cons a as ih =>
    intro bs
    cases bs with
    | nil => right; rfl
    | cons b bs =>
      by_cases hab : a = b
      · subst hab
        simpa [charListLe] using ih bs
      · rcases lt_trichotomy a b with h | h | h
        · left; simp [charListLe, hab, h]
        · exact absurd h hab
        · right
          have hba : ¬ b = a := fun hba => hab hba.symm
          simp [charListLe, hba, h]

theorem charListLe_trans : ∀ as bs cs : List Char,
    charListLe as bs = true → charListLe bs cs = true → charListLe as cs = true := by
  intro as
  induction as with
  | nil => intro bs cs _ _; rfl
  | cons a as ih =>
    intro bs cs h1 h2
    cases bs with
    | nil => simp [charListLe] at h1
    | cons b bs =>
      cases cs with
      | nil => simp [charListLe] at h2
      | cons c cs =>
        by_cases hab : a = b <;> by_cases hbc : b = c
        · subst hab; subst hbc
          simp only [charListLe, if_pos rfl] at h1 h2 ⊢
          exact ih bs cs h1 h2
        · subst hab
          simpa [charListLe, hbc] using h2
        · subst hbc
          simpa [charListLe, hab] using h1
        · have h1' : a < b := by
            by_contra hlt
            simp [charListLe, hab, hlt] at h1
          have h2' : b < c := by
            by_contra hlt
            simp [charListLe, hbc, hlt] at h2
          have hac : a < c := lt_trans h1' h2'
          have hac' : ¬ a = c := ne_of_lt hac
          simp [charListLe, hac', hac]

instance : IsTotal ComponentMeta tagLe :=
  ⟨fun a b => charListLe_total a.tagName.data b.tagName.data⟩

instance : IsTrans ComponentMeta tagLe :=
  ⟨fun _ _ _ h1 h2 => charListLe_trans _ _ _ h1 h2⟩

/-- `parseManifest` (`src/generators/manifest-parser.ts`, lines 12–37),
taking the already-parsed JSON value and restricted to the successful
executions: a missing or non-array `modules` field is treated as empty; the
collected components are sorted by tag name.  The fallible `parseManifestE`
below additionally models the `TypeError`s the source can raise on
well-formed JSON; `parseManifestE_agrees` proves the two coincide whenever
the program does not throw. -/
def parseManifest (manifest : Js) (wrapperSelectorPrefix : String) :
    List ComponentMeta :=
  let modules :=
    match manifest.getField "modules" with
    | some (.arr ms) => ms
    | _ => []
  (collectComponents modules wrapperSelectorPrefix).insertionSort tagLe

/-! ## The fallible parser

The `as string` casts in the source are erased at runtime, so two call
sites invoke string methods on raw manifest values and throw a `TypeError`
on well-formed JSON: `toIdentifier(event.name as string)`
(`manifest-parser.ts:95`, `.replace` on the raw name) and
`toPascalCase(tagName)` (`manifest-parser.ts:49`, `.split` on the raw —
truthy, by the declaration filter — tag name).  The `…E` definitions below
embed the parser with these error paths explicit: `Except.error` marks a
thrown `TypeError`, which aborts the whole parse exactly as the exception
propagates out of `parseManifest`. -/

/-- Evaluation of `toIdentifier(event.name as string)` on the raw `name`
value of one events-array element: only a string succeeds.  A `null`
element throws at the `event.name` property access itself; every other
non-string name (a missing `name` included: `toIdentifier(undefined)`)
throws inside `toIdentifier` at the `.replace` call.  Both are `TypeError`s
aborting the parse, modelled as a single error. -/
def eventNameE (e : Js) : Except String String :=
  match e.getField "name" with
  | some (.str s) => .ok s
  | _ => .error "TypeError: event name is not a string"

/-- Evaluation of `toPascalCase(tagName)` on the raw `tagName` value of an
included declaration: only a string succeeds; a truthy non-string tag name
(a number, `true`, an object or an array) throws inside `toPascalCase` at
the `.split` call. -/
def tagNameE (decl : Js) : Except String String :=
  match decl.getField "tagName" with
  | some (.str s) => .ok s
  | _ => .error "TypeError: tag name is not a string"

/-- The `events.map(...)` loop with its throw site: elements are processed
left to right and the first non-string name aborts the map. -/
def parseComponentEventsList : List Js → Except String (List ComponentEvent)
  | [] => .ok []
  | e :: rest =>
    match eventNameE e with
    | .error msg => .error msg
    | .ok n =>
      match parseComponentEventsList rest with
      | .error msg => .error msg
      | .ok evs =>
          .ok ({ eventName := n
                 outputName := toIdentifier n
                 type := typeTextOr "CustomEvent<any>" (e.getField "type")
                 description := jsOptString (e.getField "description") } :: evs)

/-- `parseComponentEvents` with its error path: a non-array `events` value
still yields `[]` without error. -/
def parseComponentEventsE (events : Option Js) :
    Except String (List ComponentEvent) :=
  match events with
  | some (.arr xs) => parseComponentEventsList xs
  | _ => .ok []

/-- `parseComponentDeclaration` with its error paths, in source evaluation
order: `toPascalCase(tagName)` is evaluated (and can throw) before the
members and events are parsed; member parsing is total (no string-method
call on raw member fields); event parsing can throw. -/
def parseComponentDeclarationE (decl : Js) (modulePath : Option String)
    (wrapperSelectorPrefix : String) : Except String ComponentMeta :=
  match tagNameE decl with
  | .error msg => .error msg
  | .ok tagName =>
    match parseComponentEventsE (decl.getField "events") with
    | .error msg => .error msg
    | .ok events =>
        .ok { tagName := tagName
              selector := wrapperSelectorPrefix ++ tagName
              className := "Wc" ++ toPascalCase tagName ++ "Component"
              fileName := wrapperSelectorPrefix ++ tagName ++ ".component.ts"
              sourceModule := modulePath
              description := jsOptString (decl.getField "description")
              members := parseComponentMembers (decl.getField "members")
              events := events }

/-- The inner declarations loop with its error paths: eligible declarations
are parsed in order and the first `TypeError` aborts the run. -/
def collectDeclsE (modulePath : Option String) (wrapperSelectorPrefix : String) :
    List Js → Except String (List ComponentMeta)
  | [] => .ok []
  | decl :: rest =>
    if declOk decl then
      match parseComponentDeclarationE decl modulePath wrapperSelectorPrefix with
      | .error msg => .error msg
      | .ok c =>
        match collectDeclsE modulePath wrapperSelectorPrefix rest with
        | .error msg => .error msg
        | .ok cs => .ok (c :: cs)
    else collectDeclsE modulePath wrapperSelectorPrefix rest

/-- The module walk with its error paths: a module with a missing or
non-array `declarations` field is still skipped without error. -/
def collectComponentsE : List Js → String → Except String (List ComponentMeta)
  | [], _ => .ok []
  | mod :: rest, wrapperSelectorPrefix =>
    match
      (match mod.getField "declarations" with
       | some (.arr decls) =>
           collectDeclsE (jsNullishString (mod.getField "path"))
             wrapperSelectorPrefix decls
       | _ => .ok []) with
    | .error msg => .error msg
    | .ok cs =>
      match collectComponentsE rest wrapperSelectorPrefix with
      | .error msg => .error msg
      | .ok more => .ok (cs ++ more)

/-- `parseManifest` with its error paths: a missing or non-array `modules`
field is still treated as empty without error; a `TypeError` raised while
collecting components aborts the parse before the sort. -/
def parseManifestE (manifest : Js) (wrapperSelectorPrefix : String) :
    Except String (List ComponentMeta) :=
  let modules :=
    match manifest.getField "modules" with
    | some (.arr ms) => ms
    | _ => []
  match collectComponentsE modules wrapperSelectorPrefix with
  | .error msg => .error msg
  | .ok comps => .ok (comps.insertionSort tagLe)

/-- The parse step including `JSON.parse`: the source first calls
`JSON.parse` on the manifest text, which throws on invalid JSON (modelled
by the `Except` input) and propagates that error unchanged; on valid JSON
the walk itself can still throw a `TypeError` (see `parseManifestE`). -/
def parseManifestSourceE (source : Except String Js)
    (wrapperSelectorPrefix : String) : Except String (List ComponentMeta) :=
  match source with
  | .error e => .error e
  | .ok j => parseManifestE j wrapperSelectorPrefix

/-! ## Claim C1 — member filtering

The spec's exclusion invariant (kind, `#`-prefixed names, privacy,
modifiers) matches the `isPublicFieldLikeMember` type guard of the
repository's other parser variant, but `parseComponentMembers` — the filter
the wired-up parser actually applies — consults only `kind`.  Moreover the
spec's example members declare no `kind` at all, so even the intended filter
excludes every one of them, `data` included. -/

/-- Declaration of the spec's privacy-filtering example, verbatim: none of
the four members declares a `kind`. -/
def c1ExampleDecl : Js :=
  .obj [
    ("kind", .str "class"), ("tagName", .str "x-widget"),
    ("members", .arr [
      .obj [("name", .str "data")],
      .obj [("name", .str "_privateHelper")],
      .obj [("name", .str "#internalState")],
      .obj [("name", .str "protectedProp"), ("modifiers", .arr [.str "protected"])]
    ])]

/-- Declaration with a single `#`-prefixed private field of kind `field`. -/
def c1PrivateFieldDecl : Js :=
  .obj [
    ("kind", .str "class"), ("tagName", .str "x-widget"),
    ("members", .arr [
      .obj [("kind", .str "field"), ("name", .str "#internalState"),
        ("privacy", .str "private")]
    ])]

/-- C1, counterexample: the spec's example declaration yields an empty
members list, not one containing only `data` (no member declares kind
`field`/`property`); and a `#`-prefixed private member of kind `field` is
kept by the parser, violating the claimed exclusion invariant. -/
theorem parseComponentMembers_claim_counterexample :
    ((parseComponentDeclaration c1ExampleDecl none "wc-").members.map (·.name) ≠
      ["data"]) ∧
    ((parseComponentDeclaration c1PrivateFieldDecl none "wc-").members.map (·.name) =
      ["#internalState"]) := by
  exact ⟨by decide, by decide⟩

/-- C1, amended: the parser's member filter consults only the manifest
`kind` — the members list keeps exactly the truthy members whose kind is
`field` or `property`, regardless of name, privacy or modifiers; the
name/privacy/modifier exclusions live only in the separate
`isPublicFieldLikeMember` helper, which the wired-up parser does not use;
and the spec's example declaration, whose members declare no kind, yields an
empty members list. -/
theorem parseComponentMembers_kind_only :
    (∀ xs : List Js,
      (parseComponentMembers (some (.arr xs))).map (·.name) =
        (xs.filter fun m => m.truthy && memberKindOk m).map
          (fun m => jsString (m.getField "name"))) ∧
    (∀ m : Js, isPublicFieldLikeMember m = true →
      memberKindOk m = true ∧
      (∃ s, m.getField "name" = some (.str s) ∧ s ≠ "" ∧
        jsStartsWith s "#" = false) ∧
      (∀ v, m.getField "privacy" = some v → v.truthy = true →
        v.castString = "public") ∧
      (∀ ms, m.getField "modifiers" = some (.arr ms) → ∀ j ∈ ms,
        j ≠ .str "private" ∧ j ≠ .str "protected")) ∧
    ((parseComponentDeclaration c1ExampleDecl none "wc-").members = []) := by
  refine ⟨?_, ?_, by decide⟩
  · intro xs
    simp only [parseComponentMembers, List.map_map]
    rfl
  · intro m h
    unfold isPublicFieldLikeMember at h
    simp only [Bool.and_eq_true, Bool.not_eq_true'] at h
    obtain ⟨⟨⟨⟨_, hkind⟩, hname⟩, hpriv⟩, hmod⟩ := h
    refine ⟨hkind, ?_, ?_, ?_⟩
    · cases hg : m.getField "name" with
      | none => rw [hg] at hname; cases hname
      | some v =>
        cases v <;> rw [hg] at hname <;> try cases hname
        rename_i s
        refine ⟨s, rfl, ?_, ?_⟩
        · have := (Bool.and_eq_true _ _ ▸ hname).1
          simpa using this
        · have := (Bool.and_eq_true _ _ ▸ hname).2
          simpa using this
    · intro v hg htr
      rw [hg] at hpriv
      have hpriv2 : (if v.truthy = true then v.castString == "public" else true) = true :=
        hpriv
      rw [if_pos htr] at hpriv2
      simpa using hpriv2
    · intro ms hg j hj
      rw [hg] at hmod
      have hfalse := (List.any_eq_false.mp hmod) j hj
      constructor
      · rintro rfl; simp at hfalse
      · rintro rfl; simp at hfalse

/-- Witness for the amended C1 theorem: a concrete public field passes the
helper guard and indeed has kind `field`, a non-`#` name, public privacy and
clean modifiers. -/
theorem parseComponentMembers_kind_only_witness :
    memberKindOk (.obj [("kind", .str "field"), ("name", .str "label"),
      ("privacy", .str "public")]) = true ∧
    (parseComponentMembers (some (.arr [
      .obj [("kind", .str "field"), ("name", .str "label")]]))).map (·.name) =
      ["label"] := by
  refine ⟨(parseComponentMembers_kind_only.2.1 _ (by decide)).1, ?_⟩
  rw [parseComponentMembers_kind_only.1]
  decide

/-! ## Claim C3 — deterministic ordering -/

/-- Manifest declaring `my-tooltip`, `my-badge`, `my-card` in scrambled
order, spread over two modules. -/
def c3Manifest : Js :=
  .obj [("modules", .arr [
    .obj [("path", .str "src/components/a.ts"), ("declarations", .arr [
      .obj [("kind", .str "class"), ("tagName", .str "my-tooltip")],
      .obj [("kind", .str "class"), ("tagName", .str "my-card")]
    ])],
    .obj [("path", .str "src/components/b.ts"), ("declarations", .arr [
      .obj [("kind", .str "class"), ("tagName", .str "my-badge")]
    ])]
  ])]

/-- C3: the sequence of components returned by parsing is always sorted by
`tagName` in lexicographic order, and for the manifest declaring
`my-tooltip`, `my-badge`, `my-card` (in that declaration order) the emitted
component list — which drives both file generation order (`fileName`s) and
export-list order (`className`s) — is `my-badge`, `my-card`, `my-tooltip`. -/
theorem parseManifest_sorted_by_tagName :
    (∀ (manifest : Js) (pre : String),
      List.Sorted tagLe (parseManifest manifest pre)) ∧
    (parseManifest c3Manifest "wc-").map (·.tagName) =
      ["my-badge", "my-card", "my-tooltip"] ∧
    (parseManifest c3Manifest "wc-").map (·.fileName) =
      ["wc-my-badge.component.ts", "wc-my-card.component.ts",
        "wc-my-tooltip.component.ts"] ∧
    (parseManifest c3Manifest "wc-").map (·.className) =
      ["WcMyBadgeComponent", "WcMyCardComponent", "WcMyTooltipComponent"] := by
  refine ⟨?_, by decide, by decide, by decide⟩
  intro manifest pre
  exact List.sorted_insertionSort tagLe _

/-! ## Claim C9 — error handling and shape tolerance -/

/-- Array test `Array.isArray` on a possibly-missing field value. -/
def isArrayJs (o : Option Js) : Bool :=
  match o with
  | some (.arr _) => true
  | _ => false

/-- String test on a possibly-missing field value: exactly the values the
source's string-method call sites accept without throwing. -/
def isStrField (o : Option Js) : Bool :=
  match o with
  | some (.str _) => true
  | _ => false

theorem tagNameE_ok {decl : Js} {s : String} (h : tagNameE decl = .ok s) :
    decl.getField "tagName" = some (.str s) := by
  unfold tagNameE at h
  cases hg : decl.getField "tagName" with
  | none => rw [hg] at h; cases h
  | some v => cases v <;> rw [hg] at h <;> cases h <;> rfl

theorem eventNameE_ok {e : Js} {n : String} (h : eventNameE e = .ok n) :
    e.getField "name" = some (.str n) := by
  unfold eventNameE at h
  cases hg : e.getField "name" with
  | none => rw [hg] at h; cases h
  | some v => cases v <;> rw [hg] at h <;> cases h <;> rfl

theorem parseComponentEventsList_agree :
    ∀ (xs : List Js) (evs : List ComponentEvent),
      parseComponentEventsList xs = .ok evs →
      parseComponentEvents (some (.arr xs)) = evs
  | [], evs, h => by cases h; rfl
  | e :: rest, evs, h => by
    unfold parseComponentEventsList at h
    cases hn : eventNameE e with
    | error msg => rw [hn] at h; cases h
    | ok n =>
      rw [hn] at h
      cases hr : parseComponentEventsList rest with
      | error msg => rw [hr] at h; cases h
      | ok evs2 =>
        rw [hr] at h
        cases h
        have hname := eventNameE_ok hn
        have ih := parseComponentEventsList_agree rest evs2 hr
        show ({ eventName := jsString (e.getField "name")
                outputName := toIdentifier (jsString (e.getField "name"))
                type := typeTextOr "CustomEvent<any>" (e.getField "type")
                description := jsOptString (e.getField "description") } :
              ComponentEvent) :: parseComponentEvents (some (.arr rest)) =
            ({ eventName := n
               outputName := toIdentifier n
               type := typeTextOr "CustomEvent<any>" (e.getField "type")
               description := jsOptString (e.getField "description") } :
              ComponentEvent) :: evs2
        rw [hname, ih]
        rfl

theorem parseComponentEventsE_agree {o : Option Js} {evs : List ComponentEvent}
    (h : parseComponentEventsE o = .ok evs) : parseComponentEvents o = evs := by
  cases o with
  | none => cases h; rfl
  | some v =>
    cases v <;>
      first
      | exact parseComponentEventsList_agree _ _ h
      | (cases h; rfl)

theorem parseComponentDeclarationE_agree {decl : Js} {mp : Option String}
    {pre : String} {c : ComponentMeta}
    (h : parseComponentDeclarationE decl mp pre = .ok c) :
    parseComponentDeclaration decl mp pre = c := by
  unfold parseComponentDeclarationE at h
  cases ht : tagNameE decl with
  | error msg => rw [ht] at h; cases h
  | ok t =>
    rw [ht] at h
    cases he : parseComponentEventsE (decl.getField "events") with
    | error msg => rw [he] at h; cases h
    | ok evs =>
      rw [he] at h
      cases h
      have htag := tagNameE_ok ht
      have hevs := parseComponentEventsE_agree he
      show ({ tagName := jsString (decl.getField "tagName")
              selector := pre ++ jsString (decl.getField "tagName")
              className :=
                "Wc" ++ toPascalCase (jsString (decl.getField "tagName")) ++
                  "Component"
              fileName :=
                pre ++ jsString (decl.getField "tagName") ++ ".component.ts"
              sourceModule := mp
              description := jsOptString (decl.getField "description")
              members := parseComponentMembers (decl.getField "members")
              events := parseComponentEvents (decl.getField "events") } :
            ComponentMeta) = _
      rw [htag, hevs]
      rfl

theorem collectDeclsE_agree (mp : Option String) (pre : String) :
    ∀ (decls : List Js) (cs : List ComponentMeta),
      collectDeclsE mp pre decls = .ok cs →
      (decls.filter declOk).map (fun decl => parseComponentDeclaration decl mp pre) = cs
  | [], cs, h => by cases h; rfl
  | d :: rest, cs, h => by
    unfold collectDeclsE at h
    by_cases hok : declOk d = true
    · rw [if_pos hok] at h
      cases hd : parseComponentDeclarationE d mp pre with
      | error msg => rw [hd] at h; cases h
      | ok c =>
        rw [hd] at h
        cases hr : collectDeclsE mp pre rest with
        | error msg => rw [hr] at h; cases h
        | ok cs2 =>
          rw [hr] at h
          cases h
          rw [List.filter_cons, if_pos hok, List.map_cons,
            parseComponentDeclarationE_agree hd,
            collectDeclsE_agree mp pre rest cs2 hr]
    · rw [if_neg hok] at h
      rw [List.filter_cons, if_neg hok]
      exact collectDeclsE_agree mp pre rest cs h

theorem collectComponentsE_agree :
    ∀ (mods : List Js) (pre : String) (cs : List ComponentMeta),
      collectComponentsE mods pre = .ok cs → collectComponents mods pre = cs
  | [], _, cs, h => by cases h; rfl
  | mod :: rest, pre, cs, h => by
    have h2 : (match (match mod.getField "declarations" with
        | some (.arr decls) =>
            collectDeclsE (jsNullishString (mod.getField "path")) pre decls
        | _ => (.ok [] : Except String (List ComponentMeta))) with
      | .error msg => (.error msg : Except String (List ComponentMeta))
      | .ok cs1 =>
        match collectComponentsE rest pre with
        | .error msg => .error msg
        | .ok more => .ok (cs1 ++ more)) = .ok cs := h
    show (match mod.getField "declarations" with
        | some (.arr decls) =>
            (decls.filter declOk).map fun decl =>
              parseComponentDeclaration decl
                (jsNullishString (mod.getField "path")) pre
        | _ => ([] : List ComponentMeta)) ++ collectComponents rest pre = cs
    cases hdecl : mod.getField "declarations" with
    | none =>
        rw [hdecl] at h2
        have h3 : (match collectComponentsE rest pre with
          | .error msg => (.error msg : Except String (List ComponentMeta))
          | .ok more => .ok (([] : List ComponentMeta) ++ more)) = .ok cs := h2
        cases hr : collectComponentsE rest pre with
        | error msg => rw [hr] at h3; cases h3
        | ok more =>
          rw [hr] at h3
          cases h3
          show ([] : List ComponentMeta) ++ collectComponents rest pre = [] ++ more
          rw [collectComponentsE_agree rest pre more hr]
    | some v =>
      cases v with
      | arr decls =>
        rw [hdecl] at h2
        have h3 : (match collectDeclsE (jsNullishString (mod.getField "path"))
            pre decls with
          | .error msg => (.error msg : Except String (List ComponentMeta))
          | .ok cs1 =>
            match collectComponentsE rest pre with
            | .error msg => .error msg
            | .ok more => .ok (cs1 ++ more)) = .ok cs := h2
        cases hds : collectDeclsE (jsNullishString (mod.getField "path")) pre decls with
        | error msg => rw [hds] at h3; cases h3
        | ok cs1 =>
          rw [hds] at h3
          cases hr : collectComponentsE rest pre with
          | error msg => rw [hr] at h3; cases h3
          | ok more =>
            rw [hr] at h3
            cases h3
            show ((decls.filter declOk).map fun decl =>
                parseComponentDeclaration decl
                  (jsNullishString (mod.getField "path")) pre) ++
              collectComponents rest pre = cs1 ++ more
            rw [collectComponentsE_agree rest pre more hr,
              collectDeclsE_agree (jsNullishString (mod.getField "path"))
                pre decls cs1 hds]
      | null =>
        rw [hdecl] at h2
        have h3 : (match collectComponentsE rest pre with
          | .error msg => (.error msg : Except String (List ComponentMeta))
          | .ok more => .ok (([] : List ComponentMeta) ++ more)) = .ok cs := h2
        cases hr : collectComponentsE rest pre with
        | error msg => rw [hr] at h3; cases h3
        | ok more =>
          rw [hr] at h3
          cases h3
          show ([] : List ComponentMeta) ++ collectComponents rest pre = [] ++ more
          rw [collectComponentsE_agree rest pre more hr]
      | bool b =>
        rw [hdecl] at h2
        have h3 : (match collectComponentsE rest pre with
          | .error msg => (.error msg : Except String (List ComponentMeta))
          | .ok more => .ok (([] : List ComponentMeta) ++ more)) = .ok cs := h2
        cases hr : collectComponentsE rest pre with
        | error msg => rw [hr] at h3; cases h3
        | ok more =>
          rw [hr] at h3
          cases h3
          show ([] : List ComponentMeta) ++ collectComponents rest pre = [] ++ more
          rw [collectComponentsE_agree rest pre more hr]
      | num m =>
        rw [hdecl] at h2
        have h3 : (match collectComponentsE rest pre with
          | .error msg => (.error msg : Except String (List ComponentMeta))
          | .ok more => .ok (([] : List ComponentMeta) ++ more)) = .ok cs := h2
        cases hr : collectComponentsE rest pre with
        | error msg => rw [hr] at h3; cases h3
        | ok more =>
          rw [hr] at h3
          cases h3
          show ([] : List ComponentMeta) ++ collectComponents rest pre = [] ++ more
          rw [collectComponentsE_agree rest pre more hr]
      | str t =>
        rw [hdecl] at h2
        have h3 : (match collectComponentsE rest pre with
          | .error msg => (.error msg : Except String (List ComponentMeta))
          | .ok more => .ok (([] : List ComponentMeta) ++ more)) = .ok cs := h2
        cases hr : collectComponentsE rest pre with
        | error msg => rw [hr] at h3; cases h3
        | ok more =>
          rw [hr] at h3
          cases h3
          show ([] : List ComponentMeta) ++ collectComponents rest pre = [] ++ more
          rw [collectComponentsE_agree rest pre more hr]
      | obj fields =>
        rw [hdecl] at h2
        have h3 : (match collectComponentsE rest pre with
          | .error msg => (.error msg : Except String (List ComponentMeta))
          | .ok more => .ok (([] : List ComponentMeta) ++ more)) = .ok cs := h2
        cases hr : collectComponentsE rest pre with
        | error msg => rw [hr] at h3; cases h3
        | ok more =>
          rw [hr] at h3
          cases h3
          show ([] : List ComponentMeta) ++ collectComponents rest pre = [] ++ more
          rw [collectComponentsE_agree rest pre more hr]

/-- The total parser is the fallible parser restricted to the executions
where the program does not throw: whenever `parseManifestE` succeeds,
`parseManifest` computes the same component sequence. -/
theorem parseManifestE_agrees {manifest : Js} {pre : String}
    {comps : List ComponentMeta}
    (h : parseManifestE manifest pre = .ok comps) :
    parseManifest manifest pre = comps := by
  have h2 : (match collectComponentsE
      (match manifest.getField "modules" with
        | some (.arr ms) => ms
        | _ => []) pre with
    | .error msg => (.error msg : Except String (List ComponentMeta))
    | .ok cs => .ok (cs.insertionSort tagLe)) = .ok comps := h
  cases hc : collectComponentsE
      (match manifest.getField "modules" with
        | some (.arr ms) => ms
        | _ => []) pre with
  | error msg => rw [hc] at h2; cases h2
  | ok cs =>
    rw [hc] at h2
    cases h2
    show (collectComponents
        (match manifest.getField "modules" with
          | some (.arr ms) => ms
          | _ => []) pre).insertionSort tagLe = cs.insertionSort tagLe
    rw [collectComponentsE_agree _ _ _ hc]

/-- Non-array `events` values are tolerated by the fallible events parse. -/
theorem parseComponentEventsE_nonarray (o : Option Js)
    (h : isArrayJs o = false) : parseComponentEventsE o = .ok [] := by
  cases o with
  | none => rfl
  | some v => cases v <;> first | rfl | simp [isArrayJs] at h

/-- Non-array `members` values are tolerated by the total members parse. -/
theorem parseComponentMembers_nonarray (o : Option Js)
    (h : isArrayJs o = false) : parseComponentMembers o = [] := by
  cases o with
  | none => rfl
  | some v => cases v <;> first | rfl | simp [isArrayJs] at h

/-- Non-array `events` values are tolerated by the total events parse. -/
theorem parseComponentEvents_nonarray (o : Option Js)
    (h : isArrayJs o = false) : parseComponentEvents o = [] := by
  cases o with
  | none => rfl
  | some v => cases v <;> first | rfl | simp [isArrayJs] at h

theorem parseComponentEventsList_error :
    ∀ (xs : List Js) (e : Js), e ∈ xs →
      isStrField (e.getField "name") = false →
      ∃ msg, parseComponentEventsList xs = .error msg
  | [], e, hmem, _ => absurd hmem (List.not_mem_nil e)
  | x :: rest, e, hmem, hbad => by
    rcases List.mem_cons.mp hmem with rfl | hmem2
    · have hx : eventNameE e = .error "TypeError: event name is not a string" := by
        unfold eventNameE
        cases hg : e.getField "name" with
        | none => rfl
        | some v => cases v <;> rw [hg] at hbad <;>
            first | simp [isStrField] at hbad | rfl
      refine ⟨"TypeError: event name is not a string", ?_⟩
      show (match eventNameE e with
        | .error msg => (.error msg : Except String (List ComponentEvent))
        | .ok n =>
          match parseComponentEventsList rest with
          | .error msg => .error msg
          | .ok evs =>
              .ok ({ eventName := n
                     outputName := toIdentifier n
                     type := typeTextOr "CustomEvent<any>" (e.getField "type")
                     description := jsOptString (e.getField "description") } :: evs)) =
        .error "TypeError: event name is not a string"
      rw [hx]
    · cases hx : eventNameE x with
      | error msg =>
        refine ⟨msg, ?_⟩
        show (match eventNameE x with
          | .error msg => (.error msg : Except String (List ComponentEvent))
          | .ok n =>
            match parseComponentEventsList rest with
            | .error msg => .error msg
            | .ok evs =>
                .ok ({ eventName := n
                       outputName := toIdentifier n
                       type := typeTextOr "CustomEvent<any>" (x.getField "type")
                       description := jsOptString (x.getField "description") } :: evs)) =
          .error msg
        rw [hx]
      | ok n =>
        obtain ⟨msg, hmsg⟩ := parseComponentEventsList_error rest e hmem2 hbad
        refine ⟨msg, ?_⟩
        show (match eventNameE x with
          | .error msg => (.error msg : Except String (List ComponentEvent))
          | .ok n =>
            match parseComponentEventsList rest with
            | .error msg => .error msg
            | .ok evs =>
                .ok ({ eventName := n
                       outputName := toIdentifier n
                       type := typeTextOr "CustomEvent<any>" (x.getField "type")
                       description := jsOptString (x.getField "description") } :: evs)) =
          .error msg
        rw [hx, hmsg]

/-- Manifest from the claim's scope on which the program throws: valid JSON,
one included class declaration whose `events` array contains `{}`
(`toIdentifier(undefined)` at `manifest-parser.ts:95`). -/
def c9EventThrowManifest : Js :=
  .obj [("modules", .arr [
    .obj [("declarations", .arr [
      .obj [("kind", .str "class"), ("tagName", .str "x-a"),
        ("events", .arr [.obj []])]])]])]

/-- Valid JSON with a truthy non-string `tagName`
(`toPascalCase(5).split` at `manifest-parser.ts:49`). -/
def c9TagThrowManifest : Js :=
  .obj [("modules", .arr [
    .obj [("declarations", .arr [
      .obj [("kind", .str "class"), ("tagName", .num 5)]])]])]

/-- C9, counterexample: parsing does not fail exactly on invalid JSON — on
these two well-formed JSON manifests the walk itself raises a `TypeError`
(an event element without a string name; a truthy non-string tag name), so
valid JSON input still fails. -/
theorem parseManifest_error_claim_counterexample :
    parseManifestSourceE (.ok c9EventThrowManifest) "wc-" =
      .error "TypeError: event name is not a string" ∧
    parseManifestSourceE (.ok c9TagThrowManifest) "wc-" =
      .error "TypeError: tag name is not a string" :=
  ⟨rfl, rfl⟩

/-- C9, amended: a `JSON.parse` error fails the whole operation and is
propagated unchanged with no partial recovery, but parsing can also fail on
well-formed JSON: an included class declaration whose `tagName` is not a
string, or whose `events` array contains an element without a string name,
raises a `TypeError` that aborts the parse.  The tolerated shape deviations
hold as claimed, without error: a missing or non-array `modules` field
yields an empty component sequence, a module with a missing or non-array
`declarations` field contributes nothing, and a declaration (with a string
tag name) whose `members` or `events` field is missing or non-array gets
empty member and event lists. -/
theorem parseManifestE_error_tolerance :
    (∀ (e : String) (pre : String),
      parseManifestSourceE (.error e) pre = .error e) ∧
    (∀ (j : Js) (pre : String), isArrayJs (j.getField "modules") = false →
      parseManifestE j pre = .ok []) ∧
    (∀ (ms1 ms2 : List Js) (bad : Js) (pre : String),
      isArrayJs (bad.getField "declarations") = false →
      collectComponentsE (ms1 ++ bad :: ms2) pre =
        collectComponentsE (ms1 ++ ms2) pre) ∧
    (∀ ev : Option Js, isArrayJs ev = false →
      parseComponentEventsE ev = .ok []) ∧
    (∀ (decl : Js) (mp : Option String) (pre s : String),
      decl.getField "tagName" = some (.str s) →
      isArrayJs (decl.getField "members") = false →
      isArrayJs (decl.getField "events") = false →
      parseComponentDeclarationE decl mp pre =
        .ok (parseComponentDeclaration decl mp pre) ∧
      (parseComponentDeclaration decl mp pre).members = [] ∧
      (parseComponentDeclaration decl mp pre).events = []) ∧
    (∀ (decl : Js) (mp : Option String) (pre : String),
      isStrField (decl.getField "tagName") = false →
      parseComponentDeclarationE decl mp pre =
        .error "TypeError: tag name is not a string") ∧
    (∀ (xs : List Js) (e : Js), e ∈ xs →
      isStrField (e.getField "name") = false →
      ∃ msg, parseComponentEventsE (some (.arr xs)) = .error msg) := by
  refine ⟨fun _ _ => rfl, ?_, ?_, ?_, ?_, ?_, ?_⟩
  · intro j pre h
    cases hg : j.getField "modules" with
    | none =>
      show (match collectComponentsE
          (match j.getField "modules" with
            | some (.arr ms) => ms
            | _ => []) pre with
        | .error msg => (.error msg : Except String (List ComponentMeta))
        | .ok cs => .ok (cs.insertionSort tagLe)) = .ok []
      rw [hg]
      rfl
    | some v =>
      cases v <;> rw [hg] at h <;>
        first
        | (show (match collectComponentsE
              (match j.getField "modules" with
                | some (.arr ms) => ms
                | _ => []) pre with
            | .error msg => (.error msg : Except String (List ComponentMeta))
            | .ok cs => .ok (cs.insertionSort tagLe)) = .ok []
           rw [hg]
           rfl)
        | simp [isArrayJs] at h
  · intro ms1 ms2 bad pre h
    induction ms1 with
    | nil =>
      have hbad : (match bad.getField "declarations" with
          | some (.arr decls) =>
              collectDeclsE (jsNullishString (bad.getField "path")) pre decls
          | _ => (.ok [] : Except String (List ComponentMeta))) = .ok [] := by
        cases hg : bad.getField "declarations" with
        | none => rfl
        | some v => cases v <;> rw [hg] at h <;>
            first | rfl | simp [isArrayJs] at h
      show (match (match bad.getField "declarations" with
          | some (.arr decls) =>
              collectDeclsE (jsNullishString (bad.getField "path")) pre decls
          | _ => (.ok [] : Except String (List ComponentMeta))) with
        | .error msg => (.error msg : Except String (List ComponentMeta))
        | .ok cs =>
          match collectComponentsE ms2 pre with
          | .error msg => .error msg
          | .ok more => .ok (cs ++ more)) = collectComponentsE ms2 pre
      rw [hbad]
      cases hr : collectComponentsE ms2 pre with
      | error msg => rfl
      | ok more => show Except.ok ([] ++ more) = .ok more; rw [List.nil_append]
    | cons m ms1 ih =>
      rw [List.cons_append, List.cons_append]
      show (match (match m.getField "declarations" with
          | some (.arr decls) =>
              collectDeclsE (jsNullishString (m.getField "path")) pre decls
          | _ => (.ok [] : Except String (List ComponentMeta))) with
        | .error msg => (.error msg : Except String (List ComponentMeta))
        | .ok cs =>
          match collectComponentsE (ms1 ++ bad :: ms2) pre with
          | .error msg => .error msg
          | .ok more => .ok (cs ++ more)) =
        (match (match m.getField "declarations" with
          | some (.arr decls) =>
              collectDeclsE (jsNullishString (m.getField "path")) pre decls
          | _ => (.ok [] : Except String (List ComponentMeta))) with
        | .error msg => (.error msg : Except String (List ComponentMeta))
        | .ok cs =>
          match collectComponentsE (ms1 ++ ms2) pre with
          | .error msg => .error msg
          | .ok more => .ok (cs ++ more))
      rw [ih]
  · exact parseComponentEventsE_nonarray
  · intro decl mp pre s hg hm he
    have htagE : tagNameE decl = .ok s := by
      unfold tagNameE
      rw [hg]
    have hevE : parseComponentEventsE (decl.getField "events") = .ok [] :=
      parseComponentEventsE_nonarray _ he
    have htotal : parseComponentDeclaration decl mp pre =
        { tagName := s
          selector := pre ++ s
          className := "Wc" ++ toPascalCase s ++ "Component"
          fileName := pre ++ s ++ ".component.ts"
          sourceModule := mp
          description := jsOptString (decl.getField "description")
          members := parseComponentMembers (decl.getField "members")
          events := parseComponentEvents (decl.getField "events") } := by
      show ({ tagName := jsString (decl.getField "tagName")
              selector := pre ++ jsString (decl.getField "tagName")
              className :=
                "Wc" ++ toPascalCase (jsString (decl.getField "tagName")) ++
                  "Component"
              fileName :=
                pre ++ jsString (decl.getField "tagName") ++ ".component.ts"
              sourceModule := mp
              description := jsOptString (decl.getField "description")
              members := parseComponentMembers (decl.getField "members")
              events := parseComponentEvents (decl.getField "events") } :
            ComponentMeta) = _
      rw [hg]
      rfl
    refine ⟨?_, ?_, ?_⟩
    · unfold parseComponentDeclarationE
      rw [htagE, hevE, htotal, parseComponentEvents_nonarray _ he]
    · show parseComponentMembers (decl.getField "members") = []
      exact parseComponentMembers_nonarray _ hm
    · show parseComponentEvents (decl.getField "events") = []
      exact parseComponentEvents_nonarray _ he
  · intro decl mp pre h
    have htagE : tagNameE decl = .error "TypeError: tag name is not a string" := by
      unfold tagNameE
      cases hg : decl.getField "tagName" with
      | none => rfl
      | some v => cases v <;> rw [hg] at h <;>
          first | simp [isStrField] at h | rfl
    unfold parseComponentDeclarationE
    rw [htagE]
  · intro xs e hmem hbad
    obtain ⟨msg, hmsg⟩ := parseComponentEventsList_error xs e hmem hbad
    exact ⟨msg, hmsg⟩

/-- Witness for the amended C9 at concrete inputs: a string `modules` field
parses to the empty sequence, a module with `declarations: 7` contributes
nothing, a declaration with string tag and non-array `members`/`events`
parses without error to empty lists, a numeric tag name raises, and an
events array containing `{}` raises. -/
theorem parseManifestE_error_tolerance_witness :
    parseManifestE (.obj [("modules", .str "nope")]) "wc-" = .ok [] ∧
    collectComponentsE [.obj [("declarations", .num 7)]] "wc-" =
      collectComponentsE [] "wc-" ∧
    parseComponentDeclarationE
        (.obj [("kind", .str "class"), ("tagName", .str "x-a"),
          ("members", .num 3), ("events", .null)]) none "wc-" =
      .ok (parseComponentDeclaration
        (.obj [("kind", .str "class"), ("tagName", .str "x-a"),
          ("members", .num 3), ("events", .null)]) none "wc-") ∧
    parseComponentDeclarationE
        (.obj [("kind", .str "class"), ("tagName", .num 5)]) none "wc-" =
      .error "TypeError: tag name is not a string" ∧
    (∃ msg, parseComponentEventsE (some (.arr [.obj []])) = .error msg) := by
  refine ⟨?_, ?_, ?_, ?_, ?_⟩
  · exact parseManifestE_error_tolerance.2.1 _ _ (by decide)
  · exact parseManifestE_error_tolerance.2.2.1 [] [] _ _ (by decide)
  · exact (parseManifestE_error_tolerance.2.2.2.2.1
      (.obj [("kind", .str "class"), ("tagName", .str "x-a"),
        ("members", .num 3), ("events", .null)]) none "wc-" "x-a"
      rfl (by decide) (by decide)).1
  · exact parseManifestE_error_tolerance.2.2.2.2.2.1 _ none "wc-" (by decide)
  · exact parseManifestE_error_tolerance.2.2.2.2.2.2 [.obj []] (.obj [])
      (List.mem_singleton.mpr rfl) (by decide)

/-! ## The type-reference resolver (`src/types/component.ts`, lines
105–122, with the allowlist from the unnamed constants file) -/

/-- `BUILT_IN_TYPE_TOKENS` (unnamed source file, part_000, lines 58–79): the
built-in type allowlist used by `collectTypeTokens`. -/
def BUILT_IN_TYPE_TOKENS : List String :=
  ["Array", "Boolean", "CustomEvent", "Date", "Event", "HTMLElement",
   "KeyboardEvent", "Map", "MouseEvent", "Node", "Number", "Object",
   "Promise", "ReadonlyArray", "Record", "Set", "String", "TouchEvent",
   "WheelEvent", "Window"]

/-- Candidate-token test on a word-character run: at least two characters,
the first an upper-case letter (the regex head `[A-Z]` followed by the
one-or-more quantifier). -/
def isTokenRun : List Char → Bool
  | c :: _ :: _ => c.isUpper
  | _ => false

/-- The match list of the token regex (word boundary, `[A-Z]`, one or more
`[A-Za-z0-9_]`, word boundary) applied globally to the type text: because
the pattern is delimited by word boundaries and its body is a greedy run of
word characters, its non-overlapping left-to-right matches are exactly the
maximal word-character runs of the text that begin with an upper-case letter
and are at least two characters long. -/
def typeTokenMatches (typeText : String) : List String :=
  ((runsOf isIdentChar typeText.data).filter isTokenRun).map String.mk

/-- `Set.add` on the accumulated token list: JavaScript `Set` keeps insertion
order and ignores re-insertions. -/
def insertToken (acc : List String) (t : String) : List String :=
  if acc.contains t then acc else acc ++ [t]

/-- The `addTypeTokens` closure of `collectTypeTokens`: add every match of
one type text that is not in the allowlist. -/
def addTypeTokens (acc : List String) (typeText : String) : List String :=
  (typeTokenMatches typeText).foldl
    (fun a t => if BUILT_IN_TYPE_TOKENS.contains t then a else insertToken a t) acc

/-- `collectTypeTokens` (`src/types/component.ts`, lines 105–122): collect
the non-built-in type tokens of every member's and every event's type
text. -/
def collectTypeTokens (component : ComponentMeta) : List String :=
  let acc := component.members.foldl (fun a m => addTypeTokens a m.type) []
  component.events.foldl (fun a e => addTypeTokens a e.type) acc

theorem mem_insertToken {x t : String} {acc : List String} :
    x ∈ insertToken acc t ↔ x ∈ acc ∨ x = t := by
  unfold insertToken
  by_cases h : acc.contains t = true
  · rw [if_pos h]
    constructor
    · exact Or.inl
    · rintro (hx | rfl)
      · exact hx
      · simpa using h
  · rw [if_neg h]
    simp

theorem nodup_insertToken {t : String} {acc : List String} (h : acc.Nodup) :
    (insertToken acc t).Nodup := by
  unfold insertToken
  by_cases hc : acc.contains t = true
  · rwa [if_pos hc]
  · rw [if_neg hc]
    refine List.Nodup.append h (List.nodup_singleton t) ?_
    intro x hx hx'
    rcases List.mem_singleton.mp hx' with rfl
    exact hc (by simpa using hx)

theorem mem_foldl_addToken (x : String) :
    ∀ (l acc : List String),
      (x ∈ l.foldl
        (fun a t => if BUILT_IN_TYPE_TOKENS.contains t then a else insertToken a t)
        acc) ↔
      x ∈ acc ∨ (x ∈ l ∧ BUILT_IN_TYPE_TOKENS.contains x = false)
  | [], acc => by simp
  | t :: ts, acc => by
    rw [List.foldl_cons, mem_foldl_addToken x ts]
    by_cases hb : BUILT_IN_TYPE_TOKENS.contains t = true
    · rw [if_pos hb]
      constructor
      · rintro (h | h)
        · exact Or.inl h
        · exact Or.inr ⟨List.mem_cons_of_mem _ h.1, h.2⟩
      · rintro (h | ⟨hmem, hnb⟩)
        · exact Or.inl h
        · rcases List.mem_cons.mp hmem with rfl | h2
          · rw [hb] at hnb; cases hnb
          · exact Or.inr ⟨h2, hnb⟩
    · rw [if_neg hb]
      constructor
      · rintro (h | h)
        · rcases mem_insertToken.mp h with hx | rfl
          · exact Or.inl hx
          · exact Or.inr ⟨List.mem_cons_self _ _, by simpa using hb⟩
        · exact Or.inr ⟨List.mem_cons_of_mem _ h.1, h.2⟩
      · rintro (h | ⟨hmem, hnb⟩)
        · exact Or.inl (mem_insertToken.mpr (Or.inl h))
        · rcases List.mem_cons.mp hmem with rfl | h2
          · exact Or.inl (mem_insertToken.mpr (Or.inr rfl))
          · exact Or.inr ⟨h2, hnb⟩

theorem mem_addTypeTokens {x : String} {acc : List String} {text : String} :
    x ∈ addTypeTokens acc text ↔
      x ∈ acc ∨ (x ∈ typeTokenMatches text ∧
        BUILT_IN_TYPE_TOKENS.contains x = false) :=
  mem_foldl_addToken x (typeTokenMatches text) acc

theorem nodup_foldl_addToken :
    ∀ (l acc : List String), acc.Nodup →
      (l.foldl
        (fun a t => if BUILT_IN_TYPE_TOKENS.contains t then a else insertToken a t)
        acc).Nodup
  | [], _, h => h
  | t :: ts, acc, h => by
    rw [List.foldl_cons]
    refine nodup_foldl_addToken ts _ ?_
    by_cases hb : BUILT_IN_TYPE_TOKENS.contains t = true
    · rwa [if_pos hb]
    · rw [if_neg hb]
      exact nodup_insertToken h

theorem mem_memberFold (x : String) :
    ∀ (mems : List ComponentMember) (acc : List String),
      (x ∈ mems.foldl (fun a m => addTypeTokens a m.type) acc) ↔
      x ∈ acc ∨ (∃ m ∈ mems, x ∈ typeTokenMatches m.type ∧
        BUILT_IN_TYPE_TOKENS.contains x = false)
  | [], acc => by simp
  | m :: ms, acc => by
    rw [List.foldl_cons, mem_memberFold x ms, mem_addTypeTokens]
    constructor
    · rintro ((h | h) | ⟨d, hd, hx⟩)
      · exact Or.inl h
      · exact Or.inr ⟨m, List.mem_cons_self _ _, h⟩
      · exact Or.inr ⟨d, List.mem_cons_of_mem _ hd, hx⟩
    · rintro (h | ⟨d, hd, hx⟩)
      · exact Or.inl (Or.inl h)
      · rcases List.mem_cons.mp hd with rfl | hd2
        · exact Or.inl (Or.inr hx)
        · exact Or.inr ⟨d, hd2, hx⟩

theorem mem_eventFold (x : String) :
    ∀ (evs : List ComponentEvent) (acc : List String),
      (x ∈ evs.foldl (fun a e => addTypeTokens a e.type) acc) ↔
      x ∈ acc ∨ (∃ e ∈ evs, x ∈ typeTokenMatches e.type ∧
        BUILT_IN_TYPE_TOKENS.contains x = false)
  | [], acc => by simp
  | e :: es, acc => by
    rw [List.foldl_cons, mem_eventFold x es, mem_addTypeTokens]
    constructor
    · rintro ((h | h) | ⟨d, hd, hx⟩)
      · exact Or.inl h
      · exact Or.inr ⟨e, List.mem_cons_self _ _, h⟩
      · exact Or.inr ⟨d, List.mem_cons_of_mem _ hd, hx⟩
    · rintro (h | ⟨d, hd, hx⟩)
      · exact Or.inl (Or.inl h)
      · rcases List.mem_cons.mp hd with rfl | hd2
        · exact Or.inl (Or.inr hx)
        · exact Or.inr ⟨d, hd2, hx⟩

theorem nodup_memberFold :
    ∀ (mems : List ComponentMember) (acc : List String), acc.Nodup →
      (mems.foldl (fun a m => addTypeTokens a m.type) acc).Nodup
  | [], _, h => h
  | m :: ms, acc, h => by
    rw [List.foldl_cons]
    exact nodup_memberFold ms _ (nodup_foldl_addToken _ _ h)

theorem nodup_eventFold :
    ∀ (evs : List ComponentEvent) (acc : List String), acc.Nodup →
      (evs.foldl (fun a e => addTypeTokens a e.type) acc).Nodup
  | [], _, h => h
  | e :: es, acc, h => by
    rw [List.foldl_cons]
    exact nodup_eventFold es _ (nodup_foldl_addToken _ _ h)

theorem runsAux_chars (p : Char → Bool) :
    ∀ (cs acc : List Char), (∀ c ∈ acc, p c = true) →
      ∀ l ∈ runsAux p acc cs, ∀ c ∈ l, p c = true
  | [], acc, hacc => by
    intro l hl c hc
    unfold runsAux at hl
    by_cases he : acc.isEmpty = true
    · rw [if_pos he] at hl; cases hl
    · rw [if_neg he] at hl
      rcases List.mem_singleton.mp hl with rfl
      exact hacc c (List.mem_reverse.mp hc)
  | d :: ds, acc, hacc => by
    intro l hl c hc
    unfold runsAux at hl
    by_cases hp : p d = true
    · rw [if_pos hp] at hl
      refine runsAux_chars p ds (d :: acc) ?_ l hl c hc
      intro x hx
      rcases List.mem_cons.mp hx with rfl | hx2
      · exact hp
      · exact hacc x hx2
    · rw [if_neg hp] at hl
      by_cases he : acc.isEmpty = true
      · rw [if_pos he] at hl
        exact runsAux_chars p ds [] (by simp) l hl c hc
      · rw [if_neg he] at hl
        rcases List.mem_cons.mp hl with rfl | hl2
        · exact hacc c (List.mem_reverse.mp hc)
        · exact runsAux_chars p ds [] (by simp) l hl2 c hc

/-! ## Claim C6 -/

/-- Component whose single member is typed `Array<string>`. -/
def c6ArrayComp : ComponentMeta :=
  { tagName := "x-grid", selector := "wc-x-grid",
    className := "WcXGridComponent", fileName := "wc-x-grid.component.ts",
    sourceModule := none, description := none,
    members := [⟨"items", "Array<string>", true, none⟩], events := [] }

/-- Component whose single member is typed `ColumnDefinition[] | GridData`. -/
def c6UnionComp : ComponentMeta :=
  { tagName := "x-grid", selector := "wc-x-grid",
    className := "WcXGridComponent", fileName := "wc-x-grid.component.ts",
    sourceModule := none, description := none,
    members := [⟨"columns", "ColumnDefinition[] | GridData", true, none⟩],
    events := [] }

/-- C6: custom-type collection returns exactly the candidate tokens (an
upper-case letter followed by one or more word characters, anywhere in the
raw type text of any member or event) that are not in the built-in
allowlist, with set semantics (no duplicates); every extracted token has the
candidate shape; a member typed `Array<string>` contributes nothing and a
member typed `ColumnDefinition[] | GridData` contributes exactly
`{ColumnDefinition, GridData}`. -/
theorem collectTypeTokens_spec :
    (∀ (component : ComponentMeta) (x : String),
      x ∈ collectTypeTokens component ↔
        BUILT_IN_TYPE_TOKENS.contains x = false ∧
        ((∃ m ∈ component.members, x ∈ typeTokenMatches m.type) ∨
         (∃ e ∈ component.events, x ∈ typeTokenMatches e.type))) ∧
    (∀ component : ComponentMeta, (collectTypeTokens component).Nodup) ∧
    (∀ (s : String) (tok : String), tok ∈ typeTokenMatches s →
      ∃ c cs, tok.data = c :: cs ∧ c.isUpper = true ∧ cs ≠ [] ∧
        ∀ d ∈ tok.data, isIdentChar d = true) ∧
    collectTypeTokens c6ArrayComp = [] ∧
    collectTypeTokens c6UnionComp = ["ColumnDefinition", "GridData"] := by
  refine ⟨?_, ?_, ?_, by decide, by decide⟩
  · intro component x
    unfold collectTypeTokens
    rw [mem_eventFold, mem_memberFold]
    simp only [List.not_mem_nil, false_or]
    constructor
    · rintro (⟨m, hm, hx, hb⟩ | ⟨e, he, hx, hb⟩)
      · exact ⟨hb, Or.inl ⟨m, hm, hx⟩⟩
      · exact ⟨hb, Or.inr ⟨e, he, hx⟩⟩
    · rintro ⟨hb, ⟨m, hm, hx⟩ | ⟨e, he, hx⟩⟩
      · exact Or.inl ⟨m, hm, hx, hb⟩
      · exact Or.inr ⟨e, he, hx, hb⟩
  · intro component
    unfold collectTypeTokens
    refine nodup_eventFold component.events _ ?_
    exact nodup_memberFold component.members [] List.nodup_nil
  · intro s tok htok
    unfold typeTokenMatches at htok
    rcases List.mem_map.mp htok with ⟨run, hrun, rfl⟩
    have hfilter := List.of_mem_filter hrun
    have hmem := List.mem_of_mem_filter hrun
    have hchars := runsAux_chars isIdentChar s.data [] (by simp) run hmem
    match run, hfilter with
    | c :: d :: cs, hf =>
      refine ⟨c, d :: cs, rfl, ?_, by simp, ?_⟩
      · simpa [isTokenRun] using hf
      · intro x hx
        exact hchars x hx

/-- Witness for the token-shape part of C6: `Foo` extracted from
`Array<Foo>` starts upper-case, has length two or more, and consists of word
characters. -/
theorem collectTypeTokens_spec_witness :
    ∃ c cs, (String.mk ['F', 'o', 'o']).data = c :: cs ∧ c.isUpper = true ∧
      cs ≠ [] ∧ ∀ d ∈ (String.mk ['F', 'o', 'o']).data, isIdentChar d = true :=
  collectTypeTokens_spec.2.2.1 "Array<Foo>" (String.mk ['F', 'o', 'o'])
    (by decide)

/-! ## String sorting for deterministic emission

`Array.from(set).sort()` uses the default comparator: code-unit
lexicographic comparison, which on the ASCII identifiers sorted here is
code-point lexicographic order. -/

/-- Lexicographic order on strings, as the default array sort comparator. -/
def strLe (a b : String) : Prop :=
  charListLe a.data b.data = true

instance : DecidableRel strLe := fun a b =>
  inferInstanceAs (Decidable (charListLe a.data b.data = true))

instance : IsTotal String strLe :=
  ⟨fun a b => charListLe_total a.data b.data⟩

instance : IsTrans String strLe :=
  ⟨fun _ _ _ h1 h2 => charListLe_trans _ _ _ h1 h2⟩

/-- `Array.from(set).sort()` on a list of distinct strings. -/
def sortStrings (l : List String) : List String :=
  l.insertionSort strLe

/-! ## The template emitter (`src/types/component.ts`, lines 132–415)

All braces of the emitted TypeScript text are written `\x7b`/`\x7d`. -/

/-- `getAngularImports` (lines 132–160): the framework import set, as the
list that feeds `Array.from(set).sort()` (all entries are distinct, so the
set is faithfully a list).  The `standalone` parameter is declared by the
source but unused. -/
def getAngularImports (hasInputs hasEvents standalone : Bool) : List String :=
  ["AfterViewInit", "ChangeDetectionStrategy", "Component",
   "CUSTOM_ELEMENTS_SCHEMA", "ElementRef", "ViewChild"] ++
  (if hasInputs then ["Input", "OnChanges", "SimpleChanges"] else []) ++
  (if hasEvents then ["EventEmitter", "NgZone", "OnDestroy", "Output"] else [])

/-- `getLifecycleInterfaces` (lines 169–181). -/
def getLifecycleInterfaces (hasInputs hasEvents : Bool) : List String :=
  ["AfterViewInit"] ++
  (if hasInputs then ["OnChanges"] else []) ++
  (if hasEvents then ["OnDestroy"] else [])

/-- `generateInputLines` (lines 189–200). -/
def generateInputLines (members : List ComponentMember) : List String :=
  members.map fun member =>
    let decorator := "  @Input() " ++ member.name ++
      (if member.optional then "?:" else ":") ++ " " ++ member.type ++ ";"
    match member.description with
    | some d => "  /** " ++ d ++ " */\n" ++ decorator
    | none => decorator

/-- `generateEventLines` (lines 208–220): the emitter property is aliased to
the dispatched event name exactly when it differs from the derived output
name. -/
def generateEventLines (events : List ComponentEvent) : List String :=
  events.map fun event =>
    let aliasPart :=
      if event.eventName != event.outputName then
        "('" ++ event.eventName ++ "') "
      else "() "
    let decorator := "  @Output" ++ aliasPart ++ event.outputName ++
      " = new EventEmitter<" ++ event.type ++ ">();"
    match event.description with
    | some d => "  /** " ++ d ++ " */\n" ++ decorator
    | none => decorator

/-- `String.prototype.trim` (ASCII whitespace suffices for the manifest
texts modelled here). -/
def trimString (s : String) : String :=
  String.mk (((s.data.dropWhile Char.isWhitespace).reverse.dropWhile
    Char.isWhitespace).reverse)

/-- Split on newlines, keeping a possible carriage return with the piece
(stripped afterwards, so the combination splits on CRLF or LF). -/
def splitNl : List Char → List Char → List (List Char)
  | acc, [] => [acc.reverse]
  | acc, c :: rest =>
      if c = '\n' then acc.reverse :: splitNl [] rest
      else splitNl (c :: acc) rest

/-- Strip one trailing carriage return. -/
def stripCr (l : List Char) : List Char :=
  match l.reverse with
  | '\r' :: rest => rest.reverse
  | _ => l

/-- The description block of the header comment: each line trimmed and
prefixed, blank lines kept as bare continuation lines. -/
def headerDescriptionLines (description : String) : String :=
  String.intercalate "\n" ((splitNl [] description.data).map fun line =>
    let t := trimString (String.mk (stripCr line))
    if t.length > 0 then " * " ++ t else " *")

/-- `buildComponentHeaderComment` (lines 229–251): description (with the
synthesized fallback), source module line and the fixed notice (whose arrow
is mojibake in the source, reproduced verbatim). -/
def buildComponentHeaderComment (component : ComponentMeta) : String :=
  let description :=
    match component.description with
    | some s =>
        if (trimString s).length > 0 then s
        else "Auto-generated Angular wrapper for <" ++ component.tagName ++ ">."
    | none => "Auto-generated Angular wrapper for <" ++ component.tagName ++ ">."
  "/**\n" ++ headerDescriptionLines description ++ "\n" ++
  " * Source: " ++ component.sourceModule.getD "n/a" ++ "\n" ++
  " * DO NOT EDIT - generated by the Custom Elements â†’ Angular generator." ++
  "\n */"

/-- `generateComponentDecoratorMetadata` (lines 261–281): the decorator
entries, with the `inputs` metadata entry only for non-standalone components
with inputs; `filter(Boolean)` drops the absent entry. -/
def generateComponentDecoratorMetadata (component : ComponentMeta)
    (standalone hasInputs : Bool) : String :=
  let metadata : List (Option String) := [
    some ("  selector: '" ++ component.selector ++ "',"),
    some ("  template: `<" ++ component.tagName ++
      " #host><ng-content></ng-content></" ++ component.tagName ++ ">`,"),
    some "  changeDetection: ChangeDetectionStrategy.OnPush,",
    some ("  standalone: " ++ (if standalone then "true" else "false") ++ ","),
    some "  schemas: [CUSTOM_ELEMENTS_SCHEMA],",
    if hasInputs && !standalone then
      some ("  // eslint-disable-next-line @angular-eslint/no-inputs-metadata-property\n  inputs: [" ++
        String.intercalate ", " (component.members.map fun m => "'" ++ m.name ++ "'") ++
        "],")
    else none]
  String.intercalate "\n" (metadata.filterMap id)

/-- The type-only import line (lines 317–323): nothing when no custom tokens
were collected, otherwise the sorted token list from the library import. -/
def typeImportLine (component : ComponentMeta) (componentLibraryImport : String) :
    String :=
  let typeTokens := collectTypeTokens component
  if typeTokens.length > 0 then
    "import type \x7b " ++ String.intercalate ", " (sortStrings typeTokens) ++
      " \x7d from '" ++ componentLibraryImport ++ "';\n"
  else ""

/-- The `teardownFns` field, emitted only when events exist. -/
def teardownFieldFrag (hasEvents : Bool) : String :=
  if hasEvents then "  private teardownFns: Array<() => void> = [];\n" else ""

/-- The `NgZone` constructor, emitted only when events exist. -/
def ctorFrag (hasEvents : Bool) : String :=
  if hasEvents then "  constructor(private readonly ngZone: NgZone) \x7b\x7d\n"
  else ""

/-- The `setupEventListeners()` call inside `ngAfterViewInit`. -/
def setupCallFrag (hasEvents : Bool) : String :=
  if hasEvents then "    this.setupEventListeners();\n" else ""

/-- The `syncInputs()` call inside `ngAfterViewInit`. -/
def syncCallFrag (hasInputs : Bool) : String :=
  if hasInputs then "    this.syncInputs();\n" else ""

/-- The `ngOnChanges` hook, emitted only when members exist. -/
def ngOnChangesFrag (hasInputs : Bool) : String :=
  if hasInputs then
    "\n  ngOnChanges(): void \x7b\n    if (!this.element) \x7b\n      return;\n    \x7d\n    this.syncInputs();\n  \x7d\n"
  else ""

/-- The `ngOnDestroy` teardown hook, emitted only when events exist. -/
def ngOnDestroyFrag (hasEvents : Bool) : String :=
  if hasEvents then
    "\n  ngOnDestroy(): void \x7b\n    this.teardownFns.forEach((remove) => remove());\n    this.teardownFns = [];\n  \x7d\n"
  else ""

/-- The `syncInputs` synchronization helper, emitted only when members
exist. -/
def syncInputsFrag (hasInputs : Bool) (assignmentLines : List String) : String :=
  if hasInputs then
    "\n  private syncInputs(): void \x7b\n    if (!this.element) \x7b\n      return;\n    \x7d\n    const element = this.element;\n" ++
    String.intercalate "\n" assignmentLines ++ "\n  \x7d\n"
  else ""

/-- The listener setup and `addEventListener` helper (which registers the
teardown callbacks), emitted only when events exist. -/
def listenersFrag (hasEvents : Bool) (eventBindingLines : List String) : String :=
  if hasEvents then
    "\n  private setupEventListeners(): void \x7b\n    if (!this.element) \x7b\n      return;\n    \x7d\n" ++
    String.intercalate "\n" eventBindingLines ++
    "\n  \x7d\n\n  private addEventListener(eventName: string, listener: (event: Event) => void): void \x7b\n    if (!this.element) \x7b\n      return;\n    \x7d\n    const element = this.element;\n    const handler = (event: Event) => \x7b\n      this.ngZone.run(() => listener(event));\n    \x7d;\n    element.addEventListener(eventName, handler as EventListener);\n    this.teardownFns.push(() => element.removeEventListener(eventName, handler as EventListener));\n  \x7d\n"
  else ""

/-- Property push lines of the `syncInputs` helper (lines 306–308). -/
def assignmentLines (members : List ComponentMember) : List String :=
  members.map fun member =>
    "    (element as any)." ++ member.name ++ " = this." ++ member.name ++ ";"

/-- Listener setup lines (lines 311–314). -/
def eventBindingLines (events : List ComponentEvent) : List String :=
  events.map fun event =>
    "    this.addEventListener('" ++ event.eventName ++
      "', (event) => this." ++ event.outputName ++ ".emit(event as " ++
      event.type ++ "));"

/-- `generateComponentFileContent` (lines 291–415): the complete wrapper
file text, transcribed fragment by fragment from the template literal. -/
def generateComponentFileContent (component : ComponentMeta)
    (componentLibraryImport : String) (standalone : Bool) : String :=
  let hasInputs := !component.members.isEmpty
  let hasEvents := !component.events.isEmpty
  let inputLines := generateInputLines component.members
  let eventLines := generateEventLines component.events
  let tImport := typeImportLine component componentLibraryImport
  buildComponentHeaderComment component ++ "\n" ++
  "import \x7b " ++
    String.intercalate ", " (sortStrings (getAngularImports hasInputs hasEvents standalone)) ++
    " \x7d from '@angular/core';" ++ "\n" ++
  (if tImport != "" then "\n" ++ tImport else "") ++ "\n" ++
  "\n" ++
  "@Component(\x7b" ++ "\n" ++
  generateComponentDecoratorMetadata component standalone hasInputs ++ "\n" ++
  "\x7d)" ++ "\n" ++
  "export class " ++ component.className ++ " implements " ++
    String.intercalate ", " (getLifecycleInterfaces hasInputs hasEvents) ++
    " \x7b" ++ "\n" ++
  "  @ViewChild('host', \x7b static: true \x7d) private readonly host!: ElementRef<HTMLElement>;" ++ "\n" ++
  (if inputLines.length != 0 then "\n" ++ String.intercalate "\n" inputLines else "") ++ "\n" ++
  (if eventLines.length != 0 then "\n" ++ String.intercalate "\n" eventLines else "") ++ "\n" ++
  "  private element?: HTMLElement;" ++ "\n" ++
  teardownFieldFrag hasEvents ++ ctorFrag hasEvents ++ "\n" ++
  "  ngAfterViewInit(): void \x7b" ++ "\n" ++
  "    this.element = this.host.nativeElement;" ++ "\n" ++
  setupCallFrag hasEvents ++ syncCallFrag hasInputs ++ "\n" ++
  "  \x7d" ++ "\n" ++
  ngOnChangesFrag hasInputs ++ ngOnDestroyFrag hasEvents ++
  syncInputsFrag hasInputs (assignmentLines component.members) ++
  listenersFrag hasEvents (eventBindingLines component.events) ++ "\n" ++
  "\x7d" ++ "\n"

/-! ## Substring search -/

/-- Substring test of `needle` inside a character list. -/
def containsSubL (needle : List Char) : List Char → Bool
  | [] => needle.isEmpty
  | c :: rest => leadsWith needle (c :: rest) || containsSubL needle rest

/-- `String.prototype.includes`. -/
def containsSub (hay pat : String) : Bool :=
  containsSubL pat.data hay.data

theorem containsSubL_append_right (needle b : List Char) :
    ∀ a : List Char, containsSubL needle b = true →
      containsSubL needle (a ++ b) = true
  | [], h => h
  | c :: a, h => by
    show (leadsWith needle (c :: (a ++ b)) || containsSubL needle (a ++ b)) = true
    rw [Bool.or_eq_true]
    exact Or.inr (containsSubL_append_right needle b a h)

theorem leadsWith_append (t : List Char) :
    ∀ needle : List Char, leadsWith needle (needle ++ t) = true
  | [] => rfl
  | c :: cs => by
    show (decide (c = c) && leadsWith cs (cs ++ t)) = true
    rw [Bool.and_eq_true]
    exact ⟨by simp, leadsWith_append t cs⟩

theorem containsSubL_here (needle t : List Char) (hne : needle ≠ []) :
    containsSubL needle (needle ++ t) = true := by
  match needle, hne with
  | c :: cs, _ =>
    show (leadsWith (c :: cs) (c :: (cs ++ t)) || containsSubL (c :: cs) (cs ++ t)) = true
    rw [Bool.or_eq_true]
    exact Or.inl (leadsWith_append t (c :: cs))

/-- Positive containment: a string that textually starts with `pat` after
some prefix contains `pat`. -/
theorem containsSub_of_append (a pat t : String) (hne : pat.data ≠ []) :
    containsSub (a ++ (pat ++ t)) pat = true := by
  unfold containsSub
  have : (a ++ (pat ++ t)).data = a.data ++ (pat.data ++ t.data) := by
    simp [String.data]
  rw [this]
  exact containsSubL_append_right _ _ _ (containsSubL_here _ _ hne)

/-! ## Claim C7 — structural branching of the rendered wrapper -/

/-- C7: for a component with no members and no events the rendered file is
exactly the base template — header, base import list, decorator metadata,
element handle and the attach-time capture hook, implementing only
`AfterViewInit` — with no property-binding lines, no event lines, no
synchronization helper, no listener setup, no constructor, no teardown field
and no `ngOnDestroy`; for a component with members but no events the
rendered file carries the input lines, the `syncInputs()` call and helper
and the `ngOnChanges` hook, while every event-conditioned fragment
(teardown field, constructor, listener setup/teardown) is empty. -/
theorem generateComponentFileContent_branching :
    (∀ (component : ComponentMeta) (lib : String) (standalone : Bool),
      component.members = [] → component.events = [] →
      getLifecycleInterfaces (!component.members.isEmpty)
          (!component.events.isEmpty) = ["AfterViewInit"] ∧
      generateComponentFileContent component lib standalone =
        buildComponentHeaderComment component ++ "\n" ++
        "import \x7b " ++
          "AfterViewInit, CUSTOM_ELEMENTS_SCHEMA, ChangeDetectionStrategy, Component, ElementRef, ViewChild" ++
          " \x7d from '@angular/core';" ++ "\n" ++
        "" ++ "\n" ++
        "\n" ++
        "@Component(\x7b" ++ "\n" ++
        generateComponentDecoratorMetadata component standalone false ++ "\n" ++
        "\x7d)" ++ "\n" ++
        "export class " ++ component.className ++ " implements " ++
          "AfterViewInit" ++ " \x7b" ++ "\n" ++
        "  @ViewChild('host', \x7b static: true \x7d) private readonly host!: ElementRef<HTMLElement>;" ++ "\n" ++
        "" ++ "\n" ++
        "" ++ "\n" ++
        "  private element?: HTMLElement;" ++ "\n" ++
        "" ++ "" ++ "\n" ++
        "  ngAfterViewInit(): void \x7b" ++ "\n" ++
        "    this.element = this.host.nativeElement;" ++ "\n" ++
        "" ++ "" ++ "\n" ++
        "  \x7d" ++ "\n" ++
        "" ++ "" ++ "" ++ "" ++ "\n" ++
        "\x7d" ++ "\n") ∧
    (∀ (component : ComponentMeta) (lib : String) (standalone : Bool),
      component.events = [] → component.members ≠ [] →
      getLifecycleInterfaces (!component.members.isEmpty)
          (!component.events.isEmpty) = ["AfterViewInit", "OnChanges"] ∧
      generateComponentFileContent component lib standalone =
        buildComponentHeaderComment component ++ "\n" ++
        "import \x7b " ++
          "AfterViewInit, CUSTOM_ELEMENTS_SCHEMA, ChangeDetectionStrategy, Component, ElementRef, Input, OnChanges, SimpleChanges, ViewChild" ++
          " \x7d from '@angular/core';" ++ "\n" ++
        (if typeImportLine component lib != "" then
          "\n" ++ typeImportLine component lib
        else "") ++ "\n" ++
        "\n" ++
        "@Component(\x7b" ++ "\n" ++
        generateComponentDecoratorMetadata component standalone true ++ "\n" ++
        "\x7d)" ++ "\n" ++
        "export class " ++ component.className ++ " implements " ++
          "AfterViewInit, OnChanges" ++ " \x7b" ++ "\n" ++
        "  @ViewChild('host', \x7b static: true \x7d) private readonly host!: ElementRef<HTMLElement>;" ++ "\n" ++
        ("\n" ++ String.intercalate "\n" (generateInputLines component.members)) ++ "\n" ++
        "" ++ "\n" ++
        "  private element?: HTMLElement;" ++ "\n" ++
        "" ++ "" ++ "\n" ++
        "  ngAfterViewInit(): void \x7b" ++ "\n" ++
        "    this.element = this.host.nativeElement;" ++ "\n" ++
        "" ++ "    this.syncInputs();\n" ++ "\n" ++
        "  \x7d" ++ "\n" ++
        "\n  ngOnChanges(): void \x7b\n    if (!this.element) \x7b\n      return;\n    \x7d\n    this.syncInputs();\n  \x7d\n" ++
        "" ++
        ("\n  private syncInputs(): void \x7b\n    if (!this.element) \x7b\n      return;\n    \x7d\n    const element = this.element;\n" ++
          String.intercalate "\n" (assignmentLines component.members) ++
          "\n  \x7d\n") ++
        "" ++ "\n" ++
        "\x7d" ++ "\n") := by
  constructor
  · rintro ⟨tag, sel, cn, fn, sm, desc, mems, evs⟩ lib standalone h1 h2
    dsimp only at h1 h2
    subst h1
    subst h2
    exact ⟨rfl, rfl⟩
  · rintro ⟨tag, sel, cn, fn, sm, desc, mems, evs⟩ lib standalone h1 h2
    dsimp only at h1 h2
    subst h1
    obtain ⟨m, ms, rfl⟩ := List.exists_cons_of_ne_nil h2
    exact ⟨rfl, rfl⟩

/-- Component with neither members nor events. -/
def c7EmptyComp : ComponentMeta :=
  { tagName := "simple-container", selector := "wc-simple-container",
    className := "WcSimpleContainerComponent",
    fileName := "wc-simple-container.component.ts",
    sourceModule := none, description := none, members := [], events := [] }

/-- Component with one member and no events. -/
def c7InputComp : ComponentMeta :=
  { tagName := "my-chip", selector := "wc-my-chip",
    className := "WcMyChipComponent", fileName := "wc-my-chip.component.ts",
    sourceModule := none, description := none,
    members := [⟨"size", "number", true, none⟩], events := [] }

/-- Witness for C7 at two concrete components: the empty component
implements only `AfterViewInit`; the member-only component implements
`AfterViewInit, OnChanges`. -/
theorem generateComponentFileContent_branching_witness :
    getLifecycleInterfaces (!c7EmptyComp.members.isEmpty)
        (!c7EmptyComp.events.isEmpty) = ["AfterViewInit"] ∧
    getLifecycleInterfaces (!c7InputComp.members.isEmpty)
        (!c7InputComp.events.isEmpty) = ["AfterViewInit", "OnChanges"] :=
  ⟨(generateComponentFileContent_branching.1 c7EmptyComp "my-lib" true rfl rfl).1,
   (generateComponentFileContent_branching.2 c7InputComp "my-lib" true rfl
      (by decide)).1⟩

/-! ## Claim C8 — end-to-end scenario -/

/-- Manifest declaring one class `my-button` with one required string member
`label` and one event `button-click` of type `CustomEvent<void>`. -/
def c8Manifest : Js :=
  .obj [("modules", .arr [
    .obj [("path", .str "src/components/my-button.ts"), ("declarations", .arr [
      .obj [
        ("kind", .str "class"), ("tagName", .str "my-button"),
        ("members", .arr [
          .obj [("kind", .str "field"), ("name", .str "label"),
            ("type", .obj [("text", .str "string")]),
            ("optional", .bool false)]]),
        ("events", .arr [
          .obj [("name", .str "button-click"),
            ("type", .obj [("text", .str "CustomEvent<void>")])]])
      ]])]
  ])]

/-- The component record the C8 manifest parses to. -/
def c8ExpectedMeta : ComponentMeta :=
  { tagName := "my-button", selector := "wc-my-button",
    className := "WcMyButtonComponent",
    fileName := "wc-my-button.component.ts",
    sourceModule := some "src/components/my-button.ts", description := none,
    members := [⟨"label", "string", false, none⟩],
    events := [⟨"button-click", "buttonClick", "CustomEvent<void>", none⟩] }

set_option maxRecDepth 20000 in
/-- C8: under selector prefix `wc-` the example manifest yields exactly one
component whose file is named `wc-my-button.component.ts` and whose selector
is `wc-my-button`; its rendered file contains the required property
declaration `label: string` (no optional marker) and an emitter bound to
`buttonClick` aliased to `'button-click'`; and in general a lone event's
emitter line carries the alias exactly when the derived output name differs
from the event name. -/
theorem generateAngularWrappers_end_to_end :
    parseManifest c8Manifest "wc-" = [c8ExpectedMeta] ∧
    c8ExpectedMeta.fileName = "wc-" ++ "my-button" ++ ".component.ts" ∧
    containsSub (generateComponentFileContent c8ExpectedMeta "my-components" true)
      "  @Input() label: string;" = true ∧
    containsSub (generateComponentFileContent c8ExpectedMeta "my-components" true)
      "  @Output('button-click') buttonClick = new EventEmitter<CustomEvent<void>>();" = true ∧
    containsSub (generateComponentFileContent c8ExpectedMeta "my-components" true)
      "  selector: 'wc-my-button'," = true ∧
    (∀ event : ComponentEvent, event.description = none →
      event.eventName ≠ event.outputName →
      generateEventLines [event] =
        ["  @Output" ++ ("('" ++ event.eventName ++ "') ") ++ event.outputName ++
          " = new EventEmitter<" ++ event.type ++ ">();"]) ∧
    (∀ event : ComponentEvent, event.description = none →
      event.eventName = event.outputName →
      generateEventLines [event] =
        ["  @Output" ++ "() " ++ event.outputName ++
          " = new EventEmitter<" ++ event.type ++ ">();"]) := by
  refine ⟨by decide, by decide, by decide, by decide, by decide, ?_, ?_⟩
  · intro event hdesc hne
    have hb : (event.eventName != event.outputName) = true := by
      simpa [bne_iff_ne] using hne
    simp only [generateEventLines, List.map_cons, List.map_nil, hb, if_true, hdesc]
  · intro event hdesc heq
    have hb : (event.eventName != event.outputName) = false := by
      simp [bne_eq_false_iff_eq, heq]
    simp only [generateEventLines, List.map_cons, List.map_nil, hb,
      Bool.false_eq_true, if_false, hdesc]

/-- Witness for C8's alias rule at concrete events: `button-click` (differs
from `buttonClick`) is aliased, `tick` (equal to its derived name) is
not. -/
theorem generateAngularWrappers_end_to_end_witness :
    generateEventLines [⟨"button-click", "buttonClick", "CustomEvent<void>", none⟩] =
      ["  @Output('button-click') buttonClick = new EventEmitter<CustomEvent<void>>();"] ∧
    generateEventLines [⟨"tick", "tick", "CustomEvent<void>", none⟩] =
      ["  @Output() tick = new EventEmitter<CustomEvent<void>>();"] := by
  constructor
  · have h := generateAngularWrappers_end_to_end.2.2.2.2.2.1
      ⟨"button-click", "buttonClick", "CustomEvent<void>", none⟩ rfl (by decide)
    simpa using h
  · have h := generateAngularWrappers_end_to_end.2.2.2.2.2.2
      ⟨"tick", "tick", "CustomEvent<void>", none⟩ rfl rfl
    simpa using h

/-! ## The regeneration coordinator
(`src/generators/angular-wrapper-generator.ts` lines 87–99 and
`src/utils/file-system.ts` lines 37–56)

The lib output directory is modelled as a partial map from file name to file
content. -/

/-- The generated-files directory. -/
def FS : Type := String → Option String

/-- `writeFileSync` of one file into the directory. -/
def writeFileFS (fs : FS) (name content : String) : FS :=
  fun m => if m = name then some content else fs m

/-- The per-component write loop of `generateAngularWrappers` (lines 90–96):
write each component's rendered text under its `fileName`, in component
order. -/
def writeComponents (components : List ComponentMeta)
    (render : ComponentMeta → String) (fs : FS) : FS :=
  components.foldl (fun acc c => writeFileFS acc c.fileName (render c)) fs

/-- `cleanupOldFiles` (`src/utils/file-system.ts`, lines 37–56): delete every
existing file whose name ends with the suffix, starts with the prefix, and
is not in the kept set (`Set.has`).  Deleting an absent name is a no-op in
the partial-map model, which also covers the missing-directory early
return. -/
def cleanupOldFiles (fs : FS) (currentFiles : List String)
    (pre suf : String) : FS :=
  fun m =>
    if jsEndsWith m suf = true ∧ jsStartsWith m pre = true ∧ m ∉ currentFiles then
      none
    else fs m

/-- The manifest-to-lib-directory transformation of
`generateAngularWrappers` (`src/generators/angular-wrapper-generator.ts`,
lines 87–99): parse the manifest, render each component into the lib
directory recording its file name in the kept set, then delete the orphans
matching the configured prefix and the fixed `.component.ts` suffix.  The
per-component renderer is passed in: the source imports it from a
`template-generator` module that is not among the source files, and the spec
describes emission as a deterministic pure function of the component record
(`generateComponentFileContent` above is such a renderer). -/
def generateAngularWrappers (manifest : Js) (wrapperSelectorPrefix : String)
    (render : ComponentMeta → String) (fs : FS) : FS :=
  let components := parseManifest manifest wrapperSelectorPrefix
  let written := writeComponents components render fs
  cleanupOldFiles written (components.map (·.fileName)) wrapperSelectorPrefix
    ".component.ts"

theorem writeComponents_not_mem {n : String}
    (r : ComponentMeta → String) :
    ∀ (comps : List ComponentMeta) (fs : FS),
      n ∉ comps.map (·.fileName) → writeComponents comps r fs n = fs n
  | [], fs, _ => rfl
  | c :: cs, fs, h => by
    have h1 : n ∉ cs.map (·.fileName) := fun hx => h (List.mem_cons_of_mem _ hx)
    have h2 : n ≠ c.fileName := by
      intro hx
      exact h (by simp [hx])
    show writeComponents cs r (writeFileFS fs c.fileName (r c)) n = fs n
    rw [writeComponents_not_mem r cs _ h1]
    unfold writeFileFS
    rw [if_neg h2]

theorem writeComponents_indep {n : String} (r : ComponentMeta → String) :
    ∀ (comps : List ComponentMeta) (fs fs' : FS),
      n ∈ comps.map (·.fileName) →
      writeComponents comps r fs n = writeComponents comps r fs' n
  | [], _, _, h => absurd h (List.not_mem_nil n)
  | c :: cs, fs, fs', h => by
    by_cases h1 : n ∈ cs.map (·.fileName)
    · exact writeComponents_indep r cs _ _ h1
    · have h2 : n = c.fileName := by
        rw [List.map_cons] at h
        rcases List.mem_cons.mp h with h' | h'
        · exact h'
        · exact absurd h' h1
      show writeComponents cs r (writeFileFS fs c.fileName (r c)) n =
        writeComponents cs r (writeFileFS fs' c.fileName (r c)) n
      rw [writeComponents_not_mem r cs _ h1, writeComponents_not_mem r cs _ h1]
      unfold writeFileFS
      rw [if_pos h2, if_pos h2]

theorem writeComponents_mem_some {n : String} (r : ComponentMeta → String) :
    ∀ (comps : List ComponentMeta) (fs : FS),
      n ∈ comps.map (·.fileName) →
      ∃ c ∈ comps, c.fileName = n ∧ writeComponents comps r fs n = some (r c)
  | [], _, h => absurd h (List.not_mem_nil n)
  | c :: cs, fs, h => by
    by_cases h1 : n ∈ cs.map (·.fileName)
    · obtain ⟨d, hd, hfn, hval⟩ := writeComponents_mem_some r cs
        (writeFileFS fs c.fileName (r c)) h1
      exact ⟨d, List.mem_cons_of_mem _ hd, hfn, hval⟩
    · have h2 : n = c.fileName := by
        rw [List.map_cons] at h
        rcases List.mem_cons.mp h with h' | h'
        · exact h'
        · exact absurd h' h1
      refine ⟨c, List.mem_cons_self _ _, h2.symm, ?_⟩
      show writeComponents cs r (writeFileFS fs c.fileName (r c)) n = some (r c)
      rw [writeComponents_not_mem r cs _ h1]
      unfold writeFileFS
      rw [if_pos h2]

theorem writeComponents_mem_nodup (r : ComponentMeta → String) :
    ∀ (comps : List ComponentMeta) (fs : FS) (c : ComponentMeta),
      (comps.map (·.fileName)).Nodup → c ∈ comps →
      writeComponents comps r fs c.fileName = some (r c)
  | [], _, c, _, hmem => absurd hmem (List.not_mem_nil c)
  | d :: cs, fs, c, hnd, hmem => by
    rcases List.mem_cons.mp hmem with rfl | hmem'
    · have h1 : c.fileName ∉ cs.map (·.fileName) := by
        rw [List.map_cons] at hnd
        exact (List.nodup_cons.mp hnd).1
      show writeComponents cs r (writeFileFS fs c.fileName (r c)) c.fileName =
        some (r c)
      rw [writeComponents_not_mem r cs _ h1]
      unfold writeFileFS
      rw [if_pos rfl]
    · have h2 : (cs.map (·.fileName)).Nodup := by
        rw [List.map_cons] at hnd
        exact (List.nodup_cons.mp hnd).2
      exact writeComponents_mem_nodup r cs _ c h2 hmem'

/-- Membership in the parse output comes from one eligible declaration. -/
theorem mem_parseManifest {manifest : Js} {pre : String} {c : ComponentMeta}
    (h : c ∈ parseManifest manifest pre) :
    ∃ decl mp, c = parseComponentDeclaration decl mp pre := by
  unfold parseManifest at h
  rw [List.mem_insertionSort] at h
  rcases List.mem_flatMap.mp h with ⟨mod, _, hmem⟩
  rcases hmod : mod.getField "declarations" with _ | v
  · rw [hmod] at hmem
    exact absurd hmem (List.not_mem_nil c)
  · cases v <;> rw [hmod] at hmem <;>
      first
      | exact absurd hmem (List.not_mem_nil c)
      | skip
    rcases List.mem_map.mp hmem with ⟨decl, _, rfl⟩
    exact ⟨decl, _, rfl⟩

theorem jsStartsWith_append (p t : String) : jsStartsWith (p ++ t) p = true := by
  unfold jsStartsWith
  have : (p ++ t).data = p.data ++ t.data := by simp
  rw [this]
  exact leadsWith_append t.data p.data

theorem jsEndsWith_append (t s : String) : jsEndsWith (t ++ s) s = true := by
  unfold jsEndsWith
  have : (t ++ s).data.reverse = s.data.reverse ++ t.data.reverse := by simp
  rw [this]
  exact leadsWith_append t.data.reverse s.data.reverse

/-- File names produced by the parser follow the prefix/suffix convention. -/
theorem parseManifest_fileName_shape {manifest : Js} {pre : String}
    {c : ComponentMeta} (h : c ∈ parseManifest manifest pre) :
    c.selector = pre ++ c.tagName ∧
    c.fileName = pre ++ c.tagName ++ ".component.ts" ∧
    jsStartsWith c.fileName pre = true ∧
    jsEndsWith c.fileName ".component.ts" = true := by
  obtain ⟨decl, mp, rfl⟩ := mem_parseManifest h
  refine ⟨rfl, rfl, ?_, ?_⟩
  · show jsStartsWith ((pre ++ jsString (decl.getField "tagName")) ++
      ".component.ts") pre = true
    unfold jsStartsWith
    have : ((pre ++ jsString (decl.getField "tagName")) ++ ".component.ts").data =
        pre.data ++ ((jsString (decl.getField "tagName")).data ++
          (".component.ts" : String).data) := by
      simp
    rw [this]
    exact leadsWith_append _ _
  · exact jsEndsWith_append _ _

/-- Two components of a file-name-nodup list with the same file name are the
same component. -/
theorem eq_of_fileName_eq {comps : List ComponentMeta}
    (hnd : (comps.map (·.fileName)).Nodup) {c d : ComponentMeta}
    (hc : c ∈ comps) (hd : d ∈ comps) (hfn : c.fileName = d.fileName) :
    c = d :=
  List.inj_on_of_nodup_map hnd hc hd hfn

/-! ## Claim C2 — idempotent reconciliation -/

/-- C2: regeneration reconciles the lib directory idempotently.  Running the
transformation a second time with the unchanged manifest leaves every name
mapped to the same content (so files are byte-identical and nothing is
deleted); and when the second manifest's parse result drops exactly one
previously generated component (file names being distinct), regenerating
removes exactly that component's file and leaves every other name
untouched. -/
theorem generateAngularWrappers_reconciliation :
    (∀ (manifest : Js) (pre : String) (render : ComponentMeta → String)
        (fs : FS) (n : String),
      generateAngularWrappers manifest pre render
          (generateAngularWrappers manifest pre render fs) n =
        generateAngularWrappers manifest pre render fs n ∧
      (∀ content,
        generateAngularWrappers manifest pre render fs n = some content →
        generateAngularWrappers manifest pre render
            (generateAngularWrappers manifest pre render fs) n = some content)) ∧
    (∀ (m1 m2 : Js) (pre : String) (render : ComponentMeta → String)
        (fs : FS) (c : ComponentMeta),
      ((parseManifest m1 pre).map (·.fileName)).Nodup →
      c ∈ parseManifest m1 pre →
      parseManifest m2 pre = (parseManifest m1 pre).erase c →
      generateAngularWrappers m2 pre render
          (generateAngularWrappers m1 pre render fs) c.fileName = none ∧
      (∀ n, n ≠ c.fileName →
        generateAngularWrappers m2 pre render
            (generateAngularWrappers m1 pre render fs) n =
          generateAngularWrappers m1 pre render fs n)) := by
  constructor
  · intro manifest pre render fs n
    have main :
        generateAngularWrappers manifest pre render
            (generateAngularWrappers manifest pre render fs) n =
          generateAngularWrappers manifest pre render fs n := by
      by_cases hmem : n ∈ (parseManifest manifest pre).map (·.fileName)
      · have hcond : ¬(jsEndsWith n ".component.ts" = true ∧
            jsStartsWith n pre = true ∧
            n ∉ (parseManifest manifest pre).map (·.fileName)) := by
          rintro ⟨_, _, hno⟩
          exact hno hmem
        show (if jsEndsWith n ".component.ts" = true ∧
              jsStartsWith n pre = true ∧
              n ∉ (parseManifest manifest pre).map (·.fileName) then none
            else writeComponents (parseManifest manifest pre) render
              (generateAngularWrappers manifest pre render fs) n) =
          (if jsEndsWith n ".component.ts" = true ∧
              jsStartsWith n pre = true ∧
              n ∉ (parseManifest manifest pre).map (·.fileName) then none
            else writeComponents (parseManifest manifest pre) render fs n)
        rw [if_neg hcond, if_neg hcond]
        exact writeComponents_indep render _ _ _ hmem
      · have hW1 : writeComponents (parseManifest manifest pre) render fs n = fs n :=
          writeComponents_not_mem render _ _ hmem
        have hW2 : writeComponents (parseManifest manifest pre) render
            (generateAngularWrappers manifest pre render fs) n =
            generateAngularWrappers manifest pre render fs n :=
          writeComponents_not_mem render _ _ hmem
        by_cases hmatch : jsEndsWith n ".component.ts" = true ∧
            jsStartsWith n pre = true
        · have hcond : jsEndsWith n ".component.ts" = true ∧
              jsStartsWith n pre = true ∧
              n ∉ (parseManifest manifest pre).map (·.fileName) :=
            ⟨hmatch.1, hmatch.2, hmem⟩
          show (if jsEndsWith n ".component.ts" = true ∧
                jsStartsWith n pre = true ∧
                n ∉ (parseManifest manifest pre).map (·.fileName) then none
              else writeComponents (parseManifest manifest pre) render
                (generateAngularWrappers manifest pre render fs) n) =
            (if jsEndsWith n ".component.ts" = true ∧
                jsStartsWith n pre = true ∧
                n ∉ (parseManifest manifest pre).map (·.fileName) then none
              else writeComponents (parseManifest manifest pre) render fs n)
          rw [if_pos hcond, if_pos hcond]
        · have hcond : ¬(jsEndsWith n ".component.ts" = true ∧
              jsStartsWith n pre = true ∧
              n ∉ (parseManifest manifest pre).map (·.fileName)) := fun h =>
            hmatch ⟨h.1, h.2.1⟩
          show (if jsEndsWith n ".component.ts" = true ∧
                jsStartsWith n pre = true ∧
                n ∉ (parseManifest manifest pre).map (·.fileName) then none
              else writeComponents (parseManifest manifest pre) render
                (generateAngularWrappers manifest pre render fs) n) =
            (if jsEndsWith n ".component.ts" = true ∧
                jsStartsWith n pre = true ∧
                n ∉ (parseManifest manifest pre).map (·.fileName) then none
              else writeComponents (parseManifest manifest pre) render fs n)
          rw [if_neg hcond, if_neg hcond, hW2, hW1]
          show (if jsEndsWith n ".component.ts" = true ∧
                jsStartsWith n pre = true ∧
                n ∉ (parseManifest manifest pre).map (·.fileName) then none
              else writeComponents (parseManifest manifest pre) render fs n) = fs n
          rw [if_neg hcond, hW1]
    exact ⟨main, fun content h => main.trans h⟩
  · intro m1 m2 pre render fs c hnd hc hdrop
    have hnodup1 : (parseManifest m1 pre).Nodup := List.Nodup.of_map _ hnd
    obtain ⟨hsel, hfn, hstart, hend⟩ := parseManifest_fileName_shape hc
    have hczero : c.fileName ∉ (parseManifest m2 pre).map (·.fileName) := by
      rw [hdrop]
      intro hmem
      rcases List.mem_map.mp hmem with ⟨d, hd, hdfn⟩
      have hd1 : d ∈ parseManifest m1 pre := List.mem_of_mem_erase hd
      have hdc : d = c := eq_of_fileName_eq hnd hd1 hc hdfn
      subst hdc
      exact (List.Nodup.not_mem_erase hnodup1) hd
    have hnd2 : ((parseManifest m2 pre).map (·.fileName)).Nodup := by
      rw [hdrop]
      exact List.Nodup.sublist ((List.erase_sublist _ _).map _) hnd
    constructor
    · show (if jsEndsWith c.fileName ".component.ts" = true ∧
            jsStartsWith c.fileName pre = true ∧
            c.fileName ∉ (parseManifest m2 pre).map (·.fileName) then none
          else writeComponents (parseManifest m2 pre) render
            (generateAngularWrappers m1 pre render fs) c.fileName) = none
      rw [if_pos ⟨hend, hstart, hczero⟩]
    · intro n hne
      by_cases hm2 : n ∈ (parseManifest m2 pre).map (·.fileName)
      · rcases List.mem_map.mp hm2 with ⟨d, hd, hdfn⟩
        have hd1 : d ∈ parseManifest m1 pre := by
          rw [hdrop] at hd
          exact List.mem_of_mem_erase hd
        have hm1 : n ∈ (parseManifest m1 pre).map (·.fileName) :=
          List.mem_map.mpr ⟨d, hd1, hdfn⟩
        have hcondL : ¬(jsEndsWith n ".component.ts" = true ∧
            jsStartsWith n pre = true ∧
            n ∉ (parseManifest m2 pre).map (·.fileName)) := fun h => h.2.2 hm2
        have hcondR : ¬(jsEndsWith n ".component.ts" = true ∧
            jsStartsWith n pre = true ∧
            n ∉ (parseManifest m1 pre).map (·.fileName)) := fun h => h.2.2 hm1
        show (if jsEndsWith n ".component.ts" = true ∧
              jsStartsWith n pre = true ∧
              n ∉ (parseManifest m2 pre).map (·.fileName) then none
            else writeComponents (parseManifest m2 pre) render
              (generateAngularWrappers m1 pre render fs) n) =
          (if jsEndsWith n ".component.ts" = true ∧
              jsStartsWith n pre = true ∧
              n ∉ (parseManifest m1 pre).map (·.fileName) then none
            else writeComponents (parseManifest m1 pre) render fs n)
        rw [if_neg hcondL, if_neg hcondR]
        subst hdfn
        rw [writeComponents_mem_nodup render _ _ d hnd2 hd,
          writeComponents_mem_nodup render _ _ d hnd hd1]
      · have hm1 : n ∉ (parseManifest m1 pre).map (·.fileName) := by
          intro hmem
          rcases List.mem_map.mp hmem with ⟨d, hd, hdfn⟩
          have hdc : d ≠ c := by
            intro hdc
            subst hdc
            exact hne hdfn.symm
          have hd2 : d ∈ parseManifest m2 pre := by
            rw [hdrop]
            exact (List.Nodup.mem_erase_iff hnodup1).mpr ⟨hdc, hd⟩
          exact hm2 (List.mem_map.mpr ⟨d, hd2, hdfn⟩)
        have hW2 : writeComponents (parseManifest m2 pre) render
            (generateAngularWrappers m1 pre render fs) n =
            generateAngularWrappers m1 pre render fs n :=
          writeComponents_not_mem render _ _ hm2
        have hW1 : writeComponents (parseManifest m1 pre) render fs n = fs n :=
          writeComponents_not_mem render _ _ hm1
        by_cases hmatch : jsEndsWith n ".component.ts" = true ∧
            jsStartsWith n pre = true
        · show (if jsEndsWith n ".component.ts" = true ∧
                jsStartsWith n pre = true ∧
                n ∉ (parseManifest m2 pre).map (·.fileName) then none
              else writeComponents (parseManifest m2 pre) render
                (generateAngularWrappers m1 pre render fs) n) =
            generateAngularWrappers m1 pre render fs n
          rw [if_pos ⟨hmatch.1, hmatch.2, hm2⟩]
          show none = (if jsEndsWith n ".component.ts" = true ∧
              jsStartsWith n pre = true ∧
              n ∉ (parseManifest m1 pre).map (·.fileName) then none
            else writeComponents (parseManifest m1 pre) render fs n)
          rw [if_pos ⟨hmatch.1, hmatch.2, hm1⟩]
        · have hcondL : ¬(jsEndsWith n ".component.ts" = true ∧
              jsStartsWith n pre = true ∧
              n ∉ (parseManifest m2 pre).map (·.fileName)) := fun h =>
            hmatch ⟨h.1, h.2.1⟩
          show (if jsEndsWith n ".component.ts" = true ∧
                jsStartsWith n pre = true ∧
                n ∉ (parseManifest m2 pre).map (·.fileName) then none
              else writeComponents (parseManifest m2 pre) render
                (generateAngularWrappers m1 pre render fs) n) =
            generateAngularWrappers m1 pre render fs n
          rw [if_neg hcondL, hW2]

/-- The C3 manifest with `my-card` dropped, for the C2 witness. -/
def c2DroppedManifest : Js :=
  .obj [("modules", .arr [
    .obj [("path", .str "src/components/a.ts"), ("declarations", .arr [
      .obj [("kind", .str "class"), ("tagName", .str "my-tooltip")]
    ])],
    .obj [("path", .str "src/components/b.ts"), ("declarations", .arr [
      .obj [("kind", .str "class"), ("tagName", .str "my-badge")]
    ])]
  ])]

/-- Witness for C2: regenerating the three-component C3 manifest over an
empty directory and then regenerating from a manifest keeping only
`my-badge` deletes exactly the `my-card` file (checked at its name) while
`my-badge`'s file survives; and the second identical run leaves
`my-badge`'s file unchanged. -/
theorem generateAngularWrappers_reconciliation_witness :
    (generateAngularWrappers c2DroppedManifest "wc-"
        (fun c => generateComponentFileContent c "web-components" true)
        (generateAngularWrappers c3Manifest "wc-"
          (fun c => generateComponentFileContent c "web-components" true)
          (fun _ => none)))
      "wc-my-card.component.ts" = none ∧
    (generateAngularWrappers c3Manifest "wc-"
        (fun c => generateComponentFileContent c "web-components" true)
        (generateAngularWrappers c3Manifest "wc-"
          (fun c => generateComponentFileContent c "web-components" true)
          (fun _ => none)))
      "wc-my-badge.component.ts" =
      (generateAngularWrappers c3Manifest "wc-"
        (fun c => generateComponentFileContent c "web-components" true)
        (fun _ => none))
      "wc-my-badge.component.ts" := by
  constructor
  · have h := (generateAngularWrappers_reconciliation.2 c3Manifest
      c2DroppedManifest "wc-"
      (fun c => generateComponentFileContent c "web-components" true)
      (fun _ => none)
      { tagName := "my-card", selector := "wc-my-card",
        className := "WcMyCardComponent", fileName := "wc-my-card.component.ts",
        sourceModule := some "src/components/a.ts", description := none,
        members := [], events := [] }
      (by decide) (by decide) (by decide)).1
    exact h
  · exact (generateAngularWrappers_reconciliation.1 c3Manifest "wc-"
      (fun c => generateComponentFileContent c "web-components" true)
      (fun _ => none) "wc-my-badge.component.ts").1

/-! ## Claim C10 — generated names and deletion candidacy -/

/-- C10: every parsed component's `fileName` is the configured prefix, the
tag name, then `.component.ts` — so it starts with the prefix the cleanup
scan filters on and ends with its suffix; a regeneration run always leaves
that component's file present (it is written and recorded in the kept set,
so the orphan-deletion step cannot delete it); and any name that fails the
prefix/suffix convention — in particular the `public-api.ts` and
`register-stencil-components.ts` helper files — is never a deletion
candidate. -/
theorem generated_files_never_deleted :
    (∀ (manifest : Js) (pre : String) (c : ComponentMeta),
      c ∈ parseManifest manifest pre →
      c.selector = pre ++ c.tagName ∧
      c.fileName = pre ++ c.tagName ++ ".component.ts" ∧
      jsStartsWith c.fileName pre = true ∧
      jsEndsWith c.fileName ".component.ts" = true ∧
      c.fileName ∈ (parseManifest manifest pre).map (·.fileName) ∧
      (∀ (render : ComponentMeta → String) (fs : FS),
        (generateAngularWrappers manifest pre render fs c.fileName).isSome = true)) ∧
    (∀ (fs : FS) (kept : List String) (pre suf n : String),
      ¬(jsEndsWith n suf = true ∧ jsStartsWith n pre = true) →
      cleanupOldFiles fs kept pre suf n = fs n) ∧
    (∀ (fs : FS) (kept : List String) (pre : String),
      cleanupOldFiles fs kept pre ".component.ts" "public-api.ts" =
        fs "public-api.ts" ∧
      cleanupOldFiles fs kept pre ".component.ts"
          "register-stencil-components.ts" =
        fs "register-stencil-components.ts") := by
  refine ⟨?_, ?_, ?_⟩
  · intro manifest pre c hc
    obtain ⟨hsel, hfn, hstart, hend⟩ := parseManifest_fileName_shape hc
    have hmem : c.fileName ∈ (parseManifest manifest pre).map (·.fileName) :=
      List.mem_map.mpr ⟨c, hc, rfl⟩
    refine ⟨hsel, hfn, hstart, hend, hmem, ?_⟩
    intro render fs
    have hcond : ¬(jsEndsWith c.fileName ".component.ts" = true ∧
        jsStartsWith c.fileName pre = true ∧
        c.fileName ∉ (parseManifest manifest pre).map (·.fileName)) := by
      rintro ⟨_, _, hno⟩
      exact hno hmem
    show (if jsEndsWith c.fileName ".component.ts" = true ∧
          jsStartsWith c.fileName pre = true ∧
          c.fileName ∉ (parseManifest manifest pre).map (·.fileName) then none
        else writeComponents (parseManifest manifest pre) render fs
          c.fileName).isSome = true
    rw [if_neg hcond]
    obtain ⟨d, _, _, hval⟩ := writeComponents_mem_some render
      (parseManifest manifest pre) fs hmem
    rw [hval]
    rfl
  · intro fs kept pre suf n hmatch
    show (if jsEndsWith n suf = true ∧ jsStartsWith n pre = true ∧ n ∉ kept
        then none else fs n) = fs n
    rw [if_neg fun h => hmatch ⟨h.1, h.2.1⟩]
  · intro fs kept pre
    constructor
    · show (if jsEndsWith "public-api.ts" ".component.ts" = true ∧
          jsStartsWith "public-api.ts" pre = true ∧
          "public-api.ts" ∉ kept then none else fs "public-api.ts") =
        fs "public-api.ts"
      rw [if_neg fun h => absurd h.1 (by decide)]
    · show (if jsEndsWith "register-stencil-components.ts" ".component.ts" = true ∧
          jsStartsWith "register-stencil-components.ts" pre = true ∧
          "register-stencil-components.ts" ∉ kept then none
        else fs "register-stencil-components.ts") =
        fs "register-stencil-components.ts"
      rw [if_neg fun h => absurd h.1 (by decide)]

/-- Witness for C10 at the C3 manifest and the `my-badge` component: the
file name follows the convention and survives its own run. -/
theorem generated_files_never_deleted_witness :
    (generateAngularWrappers c3Manifest "wc-"
      (fun c => generateComponentFileContent c "web-components" true)
      (fun _ => none) "wc-my-badge.component.ts").isSome = true ∧
    cleanupOldFiles (fun _ => some "x") ["wc-a.component.ts"] "wc-"
        ".component.ts" "public-api.ts" = some "x" := by
  constructor
  · exact ((generated_files_never_deleted.1 c3Manifest "wc-"
      { tagName := "my-badge", selector := "wc-my-badge",
        className := "WcMyBadgeComponent",
        fileName := "wc-my-badge.component.ts",
        sourceModule := some "src/components/b.ts", description := none,
        members := [], events := [] }
      (by decide)).2.2.2.2.2
      (fun c => generateComponentFileContent c "web-components" true)
      (fun _ => none))
  · exact (generated_files_never_deleted.2.2 (fun _ => some "x")
      ["wc-a.component.ts"] "wc-").1

end CemSpec
